import Mathlib

/-!
# youtrack-agent: the retrieval and reasoning loop of `main.go`

A shallow embedding of `agentAnswerStream` and of the functions it calls
(`buildChunk`, `notifyChunk`, `notifyEnd`, `removeThinkTags`), followed by
theorems about the embedding.

Modelling conventions.

* A decoded JSON value (`interface{}` filled by `encoding/json`) is a `JVal`;
  a Go map with string keys is an association list read with the first
  binding of a key, and a key that is absent reads as `nil` (`JVal.null`).
* A type assertion `x.(T)` of the one-result form stops the goroutine when it
  fails; the functions that contain one return `Option`, `none` standing for
  that run-time failure.
* `seenIssues` is a Go map; its model keeps one binding per key in order of
  first assignment.  Go ranges over a map in an unspecified order, the model
  ranges in the stored order, and statements on the snapshot are made for every
  reordering of it.
* The sink and the two remote collaborators are observed through one trace of
  events.  What a collaborator answers is any function of the trace so far and
  of the request; `youtrackRequest` answers with both of its Go results
  (the decoded list and the error); for `llmChat` the surroundings give the
  HTTP exchange, and `llmChat` itself turns it into text, an error, or the
  run-time failure of its unchecked assertions on a decoded reply without
  `choices[0].message.content`.  The base URLs are taken to parse, so that the
  requests are built.
* `json.Marshal` of the snapshot and `json.Unmarshal` of the decision are
  library code and are taken as parameters, as is the clock.
* `step`, `maxSteps` and `youtrackSearchLimit` are Go `int`s.  `main` rejects
  negative values of the two settings, and `step` stays within
  `1 .. maxSteps + 1`, which does not wrap for `maxSteps < 2^63 - 1`; they are
  natural numbers here.
-/

namespace YoutrackAgent

/-! ## Decoded JSON values -/

/-- A value as `encoding/json` stores it in an `interface{}`. -/
inductive JVal where
  | null
  | bool (b : Bool)
  | number (literal : String)
  | string (s : String)
  | array (items : List JVal)
  | object (fields : List (String × JVal))

/-- A Go `map[string]interface{}`. -/
abbrev JObject := List (String × JVal)

/-- The index expression `m[key]`: the bound value, `nil` when the key is absent. -/
def JObject.get (m : JObject) (key : String) : JVal :=
  match m.lookup key with
  | some v => v
  | none => JVal.null

/-- The assertion `v.(string)`; `none` when it fails. -/
def JVal.asString : JVal → Option String
  | JVal.string s => some s
  | _ => none

/-- The assertion `v.([]interface{})`; `none` when it fails. -/
def JVal.asArray : JVal → Option (List JVal)
  | JVal.array xs => some xs
  | _ => none

/-- The assertion `v.(map[string]interface{})`; `none` when it fails. -/
def JVal.asObject : JVal → Option JObject
  | JVal.object kvs => some kvs
  | _ => none

/-! ## Configuration -/

/-- The package-level settings read by the loop, and the process-wide `streamID`. -/
structure Config where
  youtrackURL : String
  modelName : String
  maxSteps : Nat
  youtrackSearchLimit : Nat
  streamID : String

/-! ## Issue records and the registry (`main.go` 150-206) -/

/-- The record stored in `seenIssues` under an issue ID. -/
structure IssueRecord where
  id : String
  title : JVal
  description : JVal
  link : String
  state : String
  assignee : String
  priority : String
  reviewers : List String

/-- The four locals filled while the custom fields are scanned. -/
structure CustomFields where
  state : String
  assignee : String
  priority : String
  reviewers : List String

/-- The locals before the scan: three empty strings and a nil slice. -/
def CustomFields.empty : CustomFields :=
  { state := "", assignee := "", priority := "", reviewers := [] }

/-- Lines 167-169 (and 171-173, 175-177): `if vmap, ok := value.(map...); ok`
followed by the unchecked `vmap["name"].(string)`.  The outer `none` is the
failed unchecked assertion; `some none` leaves the local untouched. -/
def singleValueName (value : JVal) : Option (Option String) :=
  match value.asObject with
  | some vmap =>
    match (JObject.get vmap "name").asString with
    | some s => some (some s)
    | none => none
  | none => some none

/-- Lines 180-184: the range over the reviewer list, appending the name of
every element that is an object. -/
def appendReviewers : List JVal → List String → Option (List String)
  | [], acc => some acc
  | v :: vs, acc =>
    match v.asObject with
    | some user =>
      match (JObject.get user "name").asString with
      | some s => appendReviewers vs (acc ++ [s])
      | none => none
    | none => appendReviewers vs acc

/-- Lines 161-187: one iteration of the range over `cfList`. -/
def scanCustomField (acc : CustomFields) (cf : JVal) : Option CustomFields :=
  match cf.asObject with
  | some cfMap =>
    match (JObject.get cfMap "name").asString with
    | some name =>
      let value := JObject.get cfMap "value"
      if name = "State" then
        match singleValueName value with
        | some (some s) => some { acc with state := s }
        | some none => some acc
        | none => none
      else if name = "Assignee" then
        match singleValueName value with
        | some (some s) => some { acc with assignee := s }
        | some none => some acc
        | none => none
      else if name = "Priority" then
        match singleValueName value with
        | some (some s) => some { acc with priority := s }
        | some none => some acc
        | none => none
      else if name = "Reviewers" then
        match value.asArray with
        | some vlist =>
          match appendReviewers vlist acc.reviewers with
          | some rs => some { acc with reviewers := rs }
          | none => none
        | none => some acc
      else some acc
    | none => none
  | none => some acc

/-- Lines 160-188: the range over `cfList`. -/
def scanCustomFields : List JVal → CustomFields → Option CustomFields
  | [], acc => some acc
  | cf :: cfs, acc =>
    match scanCustomField acc cf with
    | some acc1 => scanCustomFields cfs acc1
    | none => none

/-- Lines 156-189: the custom-field extraction of one raw issue. -/
def extractCustomFields (it : JObject) : Option CustomFields :=
  match (JObject.get it "customFields").asArray with
  | some cfList => scanCustomFields cfList CustomFields.empty
  | none => some CustomFields.empty

/-- Lines 151-200: the record built from one raw issue; `none` when one of the
unchecked assertions fails. -/
def buildRecord (cfg : Config) (it : JObject) : Option IssueRecord :=
  match (JObject.get it "idReadable").asString with
  | some id =>
    match extractCustomFields it with
    | some cf =>
      some { id := id
             title := JObject.get it "summary"
             description := JObject.get it "description"
             link := cfg.youtrackURL ++ "/issue/" ++ id
             state := cf.state
             assignee := cf.assignee
             priority := cf.priority
             reviewers := cf.reviewers }
    | none => none
  | none => none

/-- The map `seenIssues`. -/
abbrev Registry := List (String × IssueRecord)

/-- The assignment `seenIssues[id] = record`. -/
def Registry.assign : Registry → String → IssueRecord → Registry
  | [], id, r => [(id, r)]
  | (k, v) :: rest, id, r =>
    if k = id then (id, r) :: rest else (k, v) :: Registry.assign rest id r

/-- Lines 150-201: the range over `rawIssues`. -/
def mergeIssues (cfg : Config) : List JObject → Registry → Option Registry
  | [], reg => some reg
  | it :: rest, reg =>
    match buildRecord cfg it with
    | some r => mergeIssues cfg rest (Registry.assign reg r.id r)
    | none => none

/-- Lines 202-205: `issuesSlice`, the values of `seenIssues`. -/
def snapshot (reg : Registry) : List IssueRecord :=
  reg.map Prod.snd

/-! ## The stream emitter (`main.go` 79-120) -/

/-- The object under `"delta"`: each key is present only when it was assigned. -/
structure Delta where
  role : Option String
  content : Option String

/-- One element of `"choices"`. -/
structure Choice where
  index : Nat
  delta : Delta
  finishReason : Option String

/-- The JSON document of one chunk. -/
structure Chunk where
  id : String
  object : String
  created : Int
  model : String
  choices : List Choice

/-- Lines 79-105.  `now` is the reading of `time.Now().Unix()`. -/
def buildChunk (cfg : Config) (now : Int) (id content : String)
    (roleIncluded finish : Bool) : Chunk :=
  { id := id
    object := "chat.completion.chunk"
    created := now
    model := cfg.modelName
    choices :=
      [{ index := 0
         delta :=
           { role := if roleIncluded then some "assistant" else none
             content := if content ≠ "" then some content else none }
         finishReason := if finish then some "stop" else none }] }

/-- The document spelled out by hand on line 127. -/
def roleChunk (cfg : Config) (now : Int) : Chunk :=
  { id := cfg.streamID
    object := "chat.completion.chunk"
    created := now
    model := cfg.modelName
    choices :=
      [{ index := 0
         delta := { role := some "assistant", content := none }
         finishReason := none }] }

/-- One call of `w.Write`: a framed chunk `data: <json>\n\n`, or the sentinel
`data: [DONE]\n\n`. -/
inductive Write where
  | data (c : Chunk)
  | done

/-- One element of the `messages` argument of `llmChat`. -/
structure Message where
  role : String
  content : String

/-- What the function does to the outside, in order. -/
inductive Event where
  | write (w : Write)
  | flush
  | youtrackRequest (path : String) (params : List (String × String))
  | llmChat (messages : List Message) (maxTokens : Nat) (temperature : Nat)
      (responseFormat : Option JVal)

/-- The two results of `youtrackRequest`.  The decoder may leave decoded
elements in `data` when it reports an error. -/
structure SearchResult where
  data : List JObject
  err : Option String

/-- The structure `action` of lines 264-268. -/
structure AgentAction where
  action : String
  answer : String
  query : String

/-- What the HTTP exchange of `llmChat` comes to: `client.Do` fails, the body
does not decode into a JSON object, or it decodes into `result`. -/
inductive ChatExchange where
  | transportError (err : String)
  | undecodable (err : String)
  | decoded (result : JObject)

/-- How a call of `llmChat` ends: with the message, with an error, or in the
run-time failure of one of its unchecked assertions. -/
inductive ChatResult where
  | ok (msg : String)
  | error (err : String)
  | panicked

/-- Lines 380-393: what `llmChat` makes of the exchange.  Lines 391-392 take
`result["choices"]` as a list, its element 0 as an object, the `message` of
that as an object and the `content` of that as a string, each unchecked. -/
def llmChatResult : ChatExchange → ChatResult
  | ChatExchange.transportError err => ChatResult.error err
  | ChatExchange.undecodable err => ChatResult.error err
  | ChatExchange.decoded result =>
    match (JObject.get result "choices").asArray with
    | some (first :: _) =>
      match first.asObject with
      | some choice =>
        match (JObject.get choice "message").asObject with
        | some message =>
          match (JObject.get message "content").asString with
          | some msg => ChatResult.ok msg
          | none => ChatResult.panicked
        | none => ChatResult.panicked
      | none => ChatResult.panicked
    | some [] => ChatResult.panicked
    | none => ChatResult.panicked

/-- The surroundings of one interaction: the clock, the two remote
collaborators and the two library codecs.  The first argument of the first
three is the trace of events that came before. -/
structure World where
  now : List Event → Int
  youtrackRequest : List Event → String → List (String × String) → SearchResult
  llmReply : List Event → List Message → Nat → Nat → Option JVal → ChatExchange
  jsonMarshal : List IssueRecord → String
  jsonUnmarshal : String → Option AgentAction

/-- Lines 363-394: a call of `llmChat` in the given surroundings. -/
def World.llmChat (w : World) (tr : List Event) (messages : List Message)
    (maxTokens temperature : Nat) (responseFormat : Option JVal) : ChatResult :=
  llmChatResult (w.llmReply tr messages maxTokens temperature responseFormat)

/-- Lines 109-113. -/
def notifyChunk (cfg : Config) (w : World) (tr : List Event) (message : String) :
    List Event :=
  tr ++ [Event.write (Write.data (buildChunk cfg (w.now tr) cfg.streamID message false false)),
         Event.flush]

/-- Lines 115-120. -/
def notifyEnd (cfg : Config) (w : World) (tr : List Event) (message : String) :
    List Event :=
  tr ++ [Event.write (Write.data (buildChunk cfg (w.now tr) cfg.streamID message false true)),
         Event.write Write.done,
         Event.flush]

/-! ## Text helpers -/

/-- The test `unicode.IsSpace` used by `strings.TrimSpace`. -/
def isSpace (c : Char) : Bool :=
  let n := c.toNat
  n == 0x09 || n == 0x0A || n == 0x0B || n == 0x0C || n == 0x0D || n == 0x20 ||
  n == 0x85 || n == 0xA0 || n == 0x1680 || (0x2000 ≤ n && n ≤ 0x200A) ||
  n == 0x2028 || n == 0x2029 || n == 0x202F || n == 0x205F || n == 0x3000

/-- The library function `strings.TrimSpace`. -/
def trimSpace (s : String) : String :=
  String.mk ((s.data.dropWhile isSpace).reverse.dropWhile isSpace).reverse

/-- The opening delimiter of the pattern on line 422. -/
def openTag : List Char := "<think>".data

/-- The closing delimiter of the pattern on line 422. -/
def closeTag : List Char := "</think>".data

/-- Offset of the first occurrence of the closing delimiter. -/
def closeOffset : List Char → Option Nat
  | [] => none
  | c :: cs =>
    if closeTag.isPrefixOf (c :: cs) then some 0
    else
      match closeOffset cs with
      | some k => some (k + 1)
      | none => none

/-- Length of the match of `(?s)<think>.*?</think>` that starts at the head of
the text: the opening delimiter, the fewest characters possible, the closing
delimiter. -/
def matchLength (s : List Char) : Option Nat :=
  if openTag.isPrefixOf s then
    match closeOffset (s.drop 7) with
    | some k => some (7 + k + 8)
    | none => none
  else none

/-- The scan of `ReplaceAllString` with the empty replacement: leftmost match
first, then on from its end.  The first argument counts the characters of the
current match still to be dropped. -/
def stripMatches : Nat → List Char → List Char
  | _, [] => []
  | k + 1, _ :: cs => stripMatches k cs
  | 0, c :: cs =>
    match matchLength (c :: cs) with
    | some m => stripMatches (m - 1) cs
    | none => c :: stripMatches 0 cs

/-- Lines 421-424. -/
def removeThinkTags (input : String) : String :=
  String.mk (stripMatches 0 input.data)

/-! ## Prompts -/

/-- Lines 29-51. -/
def expertSystemPrompt : String :=
  "Ты эксперт по поиску в YouTrack. Твои действия:\n" ++
  "  1. Читай вопрос пользователя и список найденных задач.\n" ++
  "  2. Если информации достаточно - реши, можно ли выдать финальный ответ на основе полученной информации.\n" ++
  "  3. Если информации пока мало для полноценного ответа - сформулируй новый YouTrack-запрос (с учётом синтаксиса запросов Youtrack), который, вероятно, позволит, лучше найти нужные данные.\n" ++
  "  4. Учти, что если ты ищешь текст в свободной форме (т.е. НЕ свойства или ключевые слова YouTrack-запроса), то нужно использовать русский язык для такого текста.\n" ++
  "  5. Твой ответ читает твой ассистент, поэтому тебе нужно однозначно сообщить, достаточно ли полученной информации, или нужно продолжать поиск.\n" ++
  "  6. Рассуждай по-русски.\n" ++
  "  7. Допустимые статусы (state) у задачи (issue) в Youtrack: Open, Submitted, In Progress, Code Review, Fixed, To Be Merged, Verified.\n" ++
  "  8. Допустимые приоритеты (priority) задач: Minor, Normal, Critical, Blocker.\n" ++
  "  9. НИКОГДА не ищи по типу задачи (type).\n" ++
  "  10. Ищи по статусу ТОЛЬКО ЕСЛИ это ЯВНО попросил пользователь. Ищи по приоритету ТОЛЬКО ЕСЛИ это ЯВНО попросил пользователь.\n" ++
  "  11. В Youtrack-запросах используй знак минуса для отрицания, например state: -YourStatus\n" ++
  "  12. Используй в Youtrack-запросах двоеточие для сравнения, например description: \"твое описание\"\n" ++
  "  13. НЕ пытайся использовать сортировку в Youtrack-запросах.\n" ++
  "\n" ++
  "Примеры запросов:\n" ++
  "- \"найти задачи в проекте CRM в статусе Blocker у пользователя Константин Гейст\" -- project: CRM state: Blocker assignee: konstantin.geyst\n" ++
  "- \"найти задачи в проекте ISONLINE, где упоминается слово оргструктура\" -- project: ISONLINE AND (description: \"оргструктура\" OR summary: \"оргструктура\")\n" ++
  "- \"найти задачи в проекте ISOF в статусе Open, но не в статусе Submitted, где упоминается React\" -- project: ISOF AND state: Open AND state: -Submitted AND (description: \"React\" OR summary: \"React\")\n" ++
  "и т.д.\n" ++
  "\n" ++
  "Сначала думай, только потом придумай Youtrack-запрос.\n"

/-- The format of lines 53-61 applied to a base URL. -/
def assistantSystemPromptFor (url : String) : String :=
  "/no_think Ты ассистент эксперта по поиску в Youtrack. Твои действия:\n" ++
  "  1. Прочитай то, что тебе передал эксперт. Если эксперт однозначно ответил на вопрос пользователя, то action=final_answer. Иначе action=yt_search. \n" ++
  "  2. Трансформируй результат его размышлений в заданную ниже схему. Строго следуй мышлению эксперта и не отклоняйся от него.\n" ++
  "  3. Если эксперт сообщает, что однозначный ответ найден, то в финальном ответе не упоминай Youtrack-запросы, а сообщи только ответ (не забудь action=final_answer в таком случае)\n" ++
  "  4. Если эксперт сообщает, что нужно ещё поискать, тогда action=yt_search и в параметр query передай сгенерированный им (экспертом) Youtrack-запрос.\n" ++
  "  5. В answer отвечай на русском (если его нужно заполнить).\n" ++
  "  6. Когда упоминаешь задачу, ВСЕГДА выдавай полную ссылку (формата \\\"" ++
  url ++
  "/issue/\x7bissueID\x7d\\\").\n" ++
  "  7. В поле answer всегда используй Markdown.\n"

/-- Lines 53-61.  The variable is initialised with the package, before `main`
parses the flags, so `youtrackURL` is still the empty string there. -/
def assistantSystemPrompt : String :=
  assistantSystemPromptFor ""

/-- Lines 207-219: the user message of the expert call. -/
def expertUserPrompt (userQuestion issuesJSON : String) (attemptQueries : List String)
    (searchErr : Option String) (lastStep : Bool) : String :=
  let p0 := "Вопрос пользователя: \"" ++ userQuestion ++ "\"\n\nНайденные задачи:\n" ++ issuesJSON
  let p1 :=
    if attemptQueries.length > 0 then
      attemptQueries.foldl (fun acc atemptQuery => acc ++ ("`" ++ atemptQuery ++ "`\n"))
        (p0 ++ "Уже опробованные Youtrack-запросы: \n")
    else p0
  let p2 :=
    match searchErr with
    | some e => p1 ++ (" Ошибка от последнего запроса: " ++ e)
    | none => p1
  if lastStep then
    p2 ++ " Это была последняя попытка что-либо поискать. Выдавай финальный ответ на основе тех задач, что были найдены."
  else p2

/-- Lines 240-256: the `response_format` of the extractor call. -/
def responseFormat : JVal :=
  JVal.object
    [("type", JVal.string "json_schema"),
     ("json_schema", JVal.object
       [("name", JVal.string "agent_action"),
        ("strict", JVal.bool true),
        ("schema", JVal.object
          [("type", JVal.string "object"),
           ("properties", JVal.object
             [("reasoning", JVal.object [("type", JVal.string "string")]),
              ("action", JVal.object [("type", JVal.string "string")]),
              ("answer", JVal.object [("type", JVal.string "string")]),
              ("query", JVal.object [("type", JVal.string "string")])]),
           ("required", JVal.array [JVal.string "action", JVal.string "answer"])])])]

/-- The fixed text of line 288. -/
def fallbackText : String := "Не получилось найти ответ\n"

/-! ## The orchestration loop (`main.go` 122-289) -/

/-- The variables that live across iterations of the loop. -/
structure LoopState where
  step : Nat
  searchQueue : List String
  seenIssues : Registry
  attemptQueries : List String

/-- How one pass through the loop body ends. -/
inductive Control where
  | again (st : LoopState)
  | leave
  | finished
  | failed

/-- How the function ends: a normal return, a run-time failure, or the model
running out of its iteration allowance. -/
inductive Exit where
  | returned
  | panicked
  | outOfFuel
  deriving DecidableEq

/-- The end of a run together with everything it did. -/
structure Outcome where
  exit : Exit
  trace : List Event

/-- The parameters of the search call, lines 140-143. -/
def searchParams (query : String) : List (String × String) :=
  [("query", query),
   ("fields", "idReadable,summary,description,customFields(name,value(name))")]

/-- Line 138: the trace once the query has been announced. -/
def searchAnnounce (cfg : Config) (w : World) (query : String) (tr : List Event) :
    List Event :=
  notifyChunk cfg w tr ("Ищу в Youtrack: `" ++ query ++ "`\n")

/-- Line 144: what the search call returns. -/
def searchResult (cfg : Config) (w : World) (query : String) (tr : List Event) :
    SearchResult :=
  w.youtrackRequest (searchAnnounce cfg w query tr) "/api/issues" (searchParams query)

/-- Lines 138-146: the trace after the announcement, the search call and the
report of the number of results (counted before the truncation). -/
def afterSearch (cfg : Config) (w : World) (query : String) (tr : List Event) :
    List Event :=
  notifyChunk cfg w
    (searchAnnounce cfg w query tr ++ [Event.youtrackRequest "/api/issues" (searchParams query)])
    ("Найдено " ++ toString (searchResult cfg w query tr).data.length ++ " результатов.\n")

/-- Lines 147-149. -/
def truncateIssues (cfg : Config) (rawIssues : List JObject) : List JObject :=
  if rawIssues.length > cfg.youtrackSearchLimit then
    rawIssues.take cfg.youtrackSearchLimit
  else rawIssues

/-- The messages of the expert call, lines 223-226. -/
def expertMessages (prompt : String) : List Message :=
  [{ role := "system", content := expertSystemPrompt },
   { role := "user", content := prompt }]

/-- Lines 202-219: the user message of the expert call of one step. -/
def expertPrompt (cfg : Config) (w : World) (userQuestion : String) (st : LoopState)
    (seen : Registry) (searchErr : Option String) : String :=
  expertUserPrompt userQuestion (w.jsonMarshal (snapshot seen)) st.attemptQueries searchErr
    (decide (st.step = cfg.maxSteps))

/-- Lines 223-226: what the expert call returns. -/
def expertResult (cfg : Config) (w : World) (userQuestion : String) (st : LoopState)
    (seen : Registry) (searchErr : Option String) (tr : List Event) : ChatResult :=
  w.llmChat (notifyChunk cfg w tr "Думаю...")
    (expertMessages (expertPrompt cfg w userQuestion st seen searchErr)) 32000 0 none

/-- Lines 221-226: the trace after the notice and the expert call. -/
def afterExpert (cfg : Config) (w : World) (userQuestion : String) (st : LoopState)
    (seen : Registry) (searchErr : Option String) (tr : List Event) : List Event :=
  notifyChunk cfg w tr "Думаю..." ++
    [Event.llmChat (expertMessages (expertPrompt cfg w userQuestion st seen searchErr)) 32000 0 none]

/-- The messages of the extractor call, lines 239 and 257-260. -/
def assistantMessages (reasoning : String) : List Message :=
  [{ role := "system", content := assistantSystemPrompt },
   { role := "user", content := "/no_think Рассуждения эксперта: \"" ++ reasoning ++ "\"" }]

/-- Lines 257-260: what the extractor call returns. -/
def extractorResult (cfg : Config) (w : World) (reasoning : String) (tr : List Event) :
    ChatResult :=
  w.llmChat (notifyChunk cfg w tr (reasoning ++ "\n")) (assistantMessages reasoning) 32000 0
    (some responseFormat)

/-- Lines 236-260: the trace after the reasoning has been shown and the
extractor has been called. -/
def afterExtractor (cfg : Config) (w : World) (reasoning : String) (tr : List Event) :
    List Event :=
  notifyChunk cfg w tr (reasoning ++ "\n") ++
    [Event.llmChat (assistantMessages reasoning) 32000 0 (some responseFormat)]

/-- Lines 264-285: what follows a successful extractor call. -/
def dispatch (cfg : Config) (w : World) (st : LoopState) (rest : List String)
    (seen : Registry) (attempts : List String) (decision : String) (tr : List Event) :
    Control × List Event :=
  match w.jsonUnmarshal decision with
  | none =>
    (Control.again { st with searchQueue := rest, seenIssues := seen,
                             attemptQueries := attempts }, tr)
  | some action =>
    if action.action = "final_answer" then
      (Control.finished,
        notifyEnd cfg w (notifyChunk cfg w tr "</think>") (action.answer ++ "\n"))
    else if action.action = "yt_search" ∧ action.query ≠ "" then
      (Control.again { st with searchQueue := rest ++ [action.query], seenIssues := seen,
                               attemptQueries := attempts },
        if action.answer ≠ "" then notifyChunk cfg w tr (action.answer ++ "\n") else tr)
    else (Control.leave, tr)

/-- Lines 202-285: from the snapshot to the end of the loop body. -/
def reason (cfg : Config) (w : World) (userQuestion : String) (st : LoopState)
    (rest : List String) (seen : Registry) (searchErr : Option String) (query : String)
    (tr : List Event) : Control × List Event :=
  match expertResult cfg w userQuestion st seen searchErr tr with
  | ChatResult.panicked =>
    (Control.failed, afterExpert cfg w userQuestion st seen searchErr tr)
  | ChatResult.error _ => (Control.leave, afterExpert cfg w userQuestion st seen searchErr tr)
  | ChatResult.ok raw =>
    if st.step = cfg.maxSteps then
      (Control.finished,
        notifyEnd cfg w
          (notifyChunk cfg w (afterExpert cfg w userQuestion st seen searchErr tr) "</think>")
          (trimSpace (removeThinkTags raw) ++ "\n"))
    else
      match extractorResult cfg w (trimSpace (removeThinkTags raw))
          (afterExpert cfg w userQuestion st seen searchErr tr) with
      | ChatResult.panicked =>
        (Control.failed, afterExtractor cfg w (trimSpace (removeThinkTags raw))
          (afterExpert cfg w userQuestion st seen searchErr tr))
      | ChatResult.error _ =>
        (Control.leave, afterExtractor cfg w (trimSpace (removeThinkTags raw))
          (afterExpert cfg w userQuestion st seen searchErr tr))
      | ChatResult.ok decision =>
        dispatch cfg w st rest seen (st.attemptQueries ++ [query]) decision
          (afterExtractor cfg w (trimSpace (removeThinkTags raw))
            (afterExpert cfg w userQuestion st seen searchErr tr))

/-- Lines 136-285: the loop body, entered with a non-empty queue whose head is
`query` and whose tail is `rest`. -/
def loopBody (cfg : Config) (w : World) (userQuestion : String) (st : LoopState)
    (query : String) (rest : List String) (tr : List Event) : Control × List Event :=
  match mergeIssues cfg (truncateIssues cfg (searchResult cfg w query tr).data) st.seenIssues with
  | none => (Control.failed, afterSearch cfg w query tr)
  | some seen =>
    reason cfg w userQuestion st rest seen (searchResult cfg w query tr).err query
      (afterSearch cfg w query tr)

/-- Lines 287-288. -/
def fallback (cfg : Config) (w : World) (tr : List Event) : Outcome :=
  { exit := Exit.returned
    trace := notifyEnd cfg w (notifyChunk cfg w tr "</think>") fallbackText }

/-- Lines 132-286: the `for` statement.  Each pass through the head uses one
unit of the first argument. -/
def forLoop (cfg : Config) (w : World) (userQuestion : String) :
    Nat → LoopState → List Event → Outcome
  | 0, _, tr => { exit := Exit.outOfFuel, trace := tr }
  | fuel + 1, st, tr =>
    if st.step ≤ cfg.maxSteps then
      match st.searchQueue with
      | [] => fallback cfg w tr
      | query :: rest =>
        match loopBody cfg w userQuestion st query rest tr with
        | (Control.again st1, tr1) =>
          forLoop cfg w userQuestion fuel { st1 with step := st1.step + 1 } tr1
        | (Control.leave, tr1) => fallback cfg w tr1
        | (Control.finished, tr1) => { exit := Exit.returned, trace := tr1 }
        | (Control.failed, tr1) => { exit := Exit.panicked, trace := tr1 }
    else fallback cfg w tr

/-- Lines 123-125: the variables before the loop. -/
def initialState (userQuestion : String) : LoopState :=
  { step := 1, searchQueue := [userQuestion], seenIssues := [], attemptQueries := [] }

/-- Lines 127-130: the role chunk and the opening of the thinking block. -/
def preamble (cfg : Config) (w : World) : List Event :=
  notifyChunk cfg w [Event.write (Write.data (roleChunk cfg (w.now []))), Event.flush] "<think>"

/-- Lines 122-289.  The head of the loop is passed at most `maxSteps + 1` times. -/
def agentAnswerStream (cfg : Config) (w : World) (userQuestion : String) : Outcome :=
  forLoop cfg w userQuestion (cfg.maxSteps + 1) (initialState userQuestion) (preamble cfg w)

/-- The writes of a trace, in order. -/
def writesOf : List Event → List Write
  | [] => []
  | Event.write x :: es => x :: writesOf es
  | _ :: es => writesOf es

/-! ## Predicates used by the statements -/

/-- A custom-field value that, when it is an object, carries a string `name`. -/
def namedValue (v : JVal) : Bool :=
  match v.asObject with
  | some m => (JObject.get m "name").asString.isSome
  | none => true

/-- A custom-field entry as the tracker's projection `customFields(name,value(name))`
delivers it: an entry that is an object has a string `name`; the value of a
`State`, `Assignee` or `Priority` entry, when an object, has a string `name`;
every object in the value list of a `Reviewers` entry has a string `name`. -/
def wellFormedField (cf : JVal) : Bool :=
  match cf.asObject with
  | some cfMap =>
    match (JObject.get cfMap "name").asString with
    | some name =>
      if name = "State" ∨ name = "Assignee" ∨ name = "Priority" then
        namedValue (JObject.get cfMap "value")
      else if name = "Reviewers" then
        match (JObject.get cfMap "value").asArray with
        | some vlist => vlist.all namedValue
        | none => true
      else true
    | none => false
  | none => true

/-- A well-formed raw issue: a string `idReadable`, and well-formed custom-field
entries when `customFields` is a list. -/
def wellFormedIssue (it : JObject) : Bool :=
  (JObject.get it "idReadable").asString.isSome &&
  match (JObject.get it "customFields").asArray with
  | some cfList => cfList.all wellFormedField
  | none => true

/-- A world whose search collaborator only ever delivers well-formed issues. -/
def WellFormedSearch (w : World) : Prop :=
  ∀ (tr : List Event) (path : String) (params : List (String × String)),
    ∀ it ∈ (w.youtrackRequest tr path params).data, wellFormedIssue it = true

/-- A world in which every call of `llmChat` returns, with text or an error. -/
def ChatReturns (w : World) : Prop :=
  ∀ (tr : List Event) (messages : List Message) (maxTokens temperature : Nat)
    (format : Option JVal),
    w.llmChat tr messages maxTokens temperature format ≠ ChatResult.panicked

/-- The chunk has a choice whose delta carries the role marker. -/
def Chunk.carriesRole (c : Chunk) : Bool :=
  c.choices.any (fun ch => ch.delta.role.isSome)

/-- The chunk has a choice with `finish_reason` `"stop"`. -/
def Chunk.carriesStop (c : Chunk) : Bool :=
  c.choices.any (fun ch => ch.finishReason == some "stop")

/-- The content deltas of the chunk's choices. -/
def Chunk.contents (c : Chunk) : List (Option String) :=
  c.choices.map (fun ch => ch.delta.content)

/-- A write that is a chunk with neither the role marker nor the terminal marker. -/
def Write.isPlain : Write → Bool
  | Write.data c => !c.carriesRole && !c.carriesStop
  | Write.done => false

/-- A stretch of events whose writes are all plain chunks. -/
def Plain (evs : List Event) : Prop :=
  ∀ x ∈ writesOf evs, Write.isPlain x = true

/-- The second trace continues the first with plain writes and calls only. -/
def Extends (tr out : List Event) : Prop :=
  ∃ mid, out = tr ++ mid ∧ Plain mid

/-- The second trace continues the first with plain writes and calls, then one
terminal chunk without role marker, the sentinel and a flush. -/
def Closes (tr out : List Event) : Prop :=
  ∃ mid last, out = tr ++ mid ++ [Event.write (Write.data last), Event.write Write.done, Event.flush] ∧
    Plain mid ∧ last.carriesRole = false ∧ last.carriesStop = true

/-- A sequence of merges: each list is merged in turn into the registry left by
the one before. -/
def mergeAll (cfg : Config) : List (List JObject) → Registry → Option Registry
  | [], reg => some reg
  | l :: ls, reg =>
    match mergeIssues cfg l reg with
    | some reg1 => mergeAll cfg ls reg1
    | none => none

/-- The raw record with the given ID that comes last in a list of raw records. -/
def lastWithId (id : String) : List JObject → Option JObject
  | [] => none
  | it :: rest =>
    match lastWithId id rest with
    | some x => some x
    | none => if (JObject.get it "idReadable").asString = some id then some it else none

/-- Every key of the registry is bound once, to a record that carries it as ID. -/
def RegistryOK (reg : Registry) : Prop :=
  (reg.map Prod.fst).Nodup ∧ ∀ p ∈ reg, p.2.id = p.1

/-- What a pass through the loop body does to the trace, by the way it ends. -/
def BodyShape (st : LoopState) (tr : List Event) : Control × List Event → Prop
  | (Control.again st1, out) => st1.step = st.step ∧ Extends tr out
  | (Control.leave, out) => Extends tr out
  | (Control.finished, out) => Closes tr out
  | (Control.failed, out) => Extends tr out

/-- The event is a call of `youtrackRequest`. -/
def Event.isSearch : Event → Bool
  | Event.youtrackRequest _ _ => true
  | _ => false

/-- The event is a call of `llmChat`. -/
def Event.isChat : Event → Bool
  | Event.llmChat _ _ _ _ => true
  | _ => false

/-- The event is the expert call: `llmChat` with a nil response format. -/
def Event.isExpertCall : Event → Bool
  | Event.llmChat _ _ _ none => true
  | _ => false

/-- Number of search calls in a trace. -/
def searchCalls (evs : List Event) : Nat := evs.countP Event.isSearch

/-- Number of `llmChat` calls in a trace. -/
def chatCalls (evs : List Event) : Nat := evs.countP Event.isChat

/-- Number of expert calls in a trace. -/
def expertCalls (evs : List Event) : Nat := evs.countP Event.isExpertCall

/-- The content deltas of the choices that carry `finish_reason` `"stop"`. -/
def stopContentsOfWrite : Write → List (Option String)
  | Write.data c =>
    (c.choices.filter (fun ch => ch.finishReason == some "stop")).map (fun ch => ch.delta.content)
  | Write.done => []

/-- The contents of the terminal chunks of a trace, in order. -/
def stopContents (evs : List Event) : List (Option String) :=
  (writesOf evs).flatMap stopContentsOfWrite

/-- The user messages of the expert calls of a trace, in order. -/
def expertPromptsOf : List Event → List String
  | [] => []
  | Event.llmChat ms _ _ none :: es =>
    ((ms.filter (fun m => m.role == "user")).map (fun m => m.content)) ++ expertPromptsOf es
  | _ :: es => expertPromptsOf es

/-! ## Sample surroundings for the worked instances -/

/-- Settings with three steps and a search limit of one. -/
def sampleConfig : Config :=
  { youtrackURL := "https://yt.example"
    modelName := "model"
    maxSteps := 3
    youtrackSearchLimit := 1
    streamID := "stream-1" }

/-- The same settings with a single step. -/
def oneStepConfig : Config :=
  { sampleConfig with maxSteps := 1 }

/-- A raw issue as the tracker delivers it, with a state and two reviewers. -/
def rawIssue (id : String) (state : String) : JObject :=
  [("idReadable", JVal.string id),
   ("summary", JVal.string ("Issue " ++ id)),
   ("description", JVal.null),
   ("customFields", JVal.array
     [JVal.object [("name", JVal.string "State"),
                   ("value", JVal.object [("name", JVal.string state)])],
      JVal.object [("name", JVal.string "Assignee"), ("value", JVal.null)],
      JVal.object [("name", JVal.string "Reviewers"),
                   ("value", JVal.array [JVal.object [("name", JVal.string "ann")],
                                         JVal.object [("name", JVal.string "bob")]])]])]

/-- A decision text asking for another search with the query `q2`. -/
def searchDecision : String :=
  "\x7b\"action\":\"yt_search\",\"answer\":\"\",\"query\":\"q2\"\x7d"

/-- A decision text carrying a final answer. -/
def finalDecision : String :=
  "\x7b\"action\":\"final_answer\",\"answer\":\"ok\"\x7d"

/-- The decoder `json.Unmarshal` on the two decision texts above; every other
text used in the instances is not JSON. -/
def sampleUnmarshal (s : String) : Option AgentAction :=
  if s = searchDecision then some { action := "yt_search", answer := "", query := "q2" }
  else if s = finalDecision then some { action := "final_answer", answer := "ok", query := "" }
  else none

/-- A reply of the reasoning service that carries the given text as
`choices[0].message.content`. -/
def chatReply (content : String) : ChatExchange :=
  ChatExchange.decoded
    [("choices", JVal.array
      [JVal.object [("message", JVal.object [("content", JVal.string content)])]])]

/-- A world with a fixed clock, a search answer chosen by the query, one answer
for the expert call and one for the extractor call.  The snapshot is
serialised as the list of its IDs. -/
def sampleWorld (search : String → SearchResult) (expert extractor : ChatExchange) :
    World :=
  { now := fun _ => 1700000000
    youtrackRequest := fun _ _ params =>
      match params.lookup "query" with
      | some q => search q
      | none => { data := [], err := none }
    llmReply := fun _ _ _ _ fmt =>
      match fmt with
      | none => expert
      | some _ => extractor
    jsonMarshal := fun l => String.intercalate "," (l.map (fun r => r.id))
    jsonUnmarshal := sampleUnmarshal }

/-- A search that finds `A-1` and `A-2` for the query `q` and `B-1` for any other. -/
def sampleSearch (query : String) : SearchResult :=
  if query = "q" then { data := [rawIssue "A-1" "Open", rawIssue "A-2" "Open"], err := none }
  else { data := [rawIssue "B-1" "Fixed"], err := none }

/-- One pass through the body: at most one search call and one expert call,
and the step counter is not touched. -/
def BodyCalls (st : LoopState) (tr : List Event) (res : Control × List Event) : Prop :=
  searchCalls res.2 ≤ searchCalls tr + 1 ∧ expertCalls res.2 ≤ expertCalls tr + 1 ∧
  ∀ st1, res.1 = Control.again st1 → st1.step = st.step


/-- The record built from `rawIssue id state` under `sampleConfig`. -/
def sampleRecord (id : String) (state : String) : IssueRecord :=
  { id := id
    title := JVal.string ("Issue " ++ id)
    description := JVal.null
    link := "https://yt.example/issue/" ++ id
    state := state
    assignee := ""
    priority := ""
    reviewers := ["ann", "bob"] }

/-- The expert answers and the extractor reports a final answer. -/
def answeringWorld : World :=
  sampleWorld sampleSearch (chatReply " <think>hm</think>r\n") (chatReply finalDecision)

/-- The expert answers and the extractor asks for the search `q2`. -/
def searchingWorld : World :=
  sampleWorld sampleSearch (chatReply "r") (chatReply searchDecision)

/-- The expert answers and the extractor returns text that is not JSON. -/
def garbledWorld : World :=
  sampleWorld sampleSearch (chatReply "r") (chatReply "not json")

/-- The reply of a reasoning service that refuses the request: a JSON object
with an `error` member and no `choices`. -/
def refusedReply : ChatExchange :=
  ChatExchange.decoded
    [("error", JVal.object [("message", JVal.string "Unauthorized"),
                            ("code", JVal.number "401")])]

/-- Every call of the reasoning service is refused. -/
def chatRefusedWorld : World :=
  sampleWorld sampleSearch refusedReply refusedReply

/-- The expert call fails. -/
def expertDownWorld : World :=
  sampleWorld sampleSearch (ChatExchange.transportError "timeout") (chatReply finalDecision)

/-! ## Further observations and fixtures -/

/-- What the HTTP exchange of `youtrackRequest` comes to: `client.Do` fails, or
the body is decoded, the decoder leaving what it decoded in `data` together
with its error, if any. -/
inductive SearchExchange where
  | transportError (err : String)
  | decoded (data : List JObject) (decodeErr : Option String)

/-- Lines 410-418: the two results of `youtrackRequest` for an exchange. -/
def youtrackRequestResult : SearchExchange → SearchResult
  | SearchExchange.transportError err => { data := [], err := some err }
  | SearchExchange.decoded data decodeErr => { data := data, err := decodeErr }

/-- The event is the extractor call: `llmChat` with a response format. -/
def Event.isExtractorCall : Event → Bool
  | Event.llmChat _ _ _ (some _) => true
  | _ => false

/-- Number of extractor calls in a trace. -/
def extractorCalls (evs : List Event) : Nat := evs.countP Event.isExtractorCall

/-- The decoder's report for the body `[<issue A-1>, 5]`: the first element is
decoded, the second is left as a nil map, and the type error is returned. -/
def partialDecode : SearchExchange :=
  SearchExchange.decoded [rawIssue "A-1" "Open", []]
    (some "json: cannot unmarshal number into Go value of type map[string]interface \x7b\x7d")

/-- Every search ends in the partial decode above; the expert answers and the
extractor reports a final answer. -/
def decodeErrorWorld : World :=
  sampleWorld (fun _ => youtrackRequestResult partialDecode) (chatReply "r")
    (chatReply finalDecision)

/-- The sample settings with a search limit of two. -/
def wideConfig : Config :=
  { sampleConfig with youtrackSearchLimit := 2 }

/-- The last-attempt instruction of line 218. -/
def lastAttemptInstruction : String :=
  " Это была последняя попытка что-либо поискать. Выдавай финальный ответ на основе тех задач, что были найдены."

/-- The extractor reports an action that is neither a final answer nor a search. -/
def unknownDecision : String :=
  "\x7b\"action\":\"wait\",\"answer\":\"\"\x7d"

/-- The decoder of `sampleUnmarshal`, which also knows `unknownDecision`. -/
def widerUnmarshal (s : String) : Option AgentAction :=
  if s = unknownDecision then some { action := "wait", answer := "", query := "" }
  else sampleUnmarshal s

/-- The expert answers and the extractor reports the unknown action. -/
def undecidedWorld : World :=
  { sampleWorld sampleSearch (chatReply "r") (chatReply unknownDecision) with
    jsonUnmarshal := widerUnmarshal }

/-- The queries of the search calls of a trace, in order. -/
def searchedQueries : List Event → List String
  | [] => []
  | Event.youtrackRequest _ params :: es =>
    match params.lookup "query" with
    | some q => q :: searchedQueries es
    | none => searchedQueries es
  | _ :: es => searchedQueries es

/-- One quoted line per query. -/
def quotedLines : List String → String
  | [] => ""
  | q :: qs => ("`" ++ q ++ "`\n") ++ quotedLines qs

/-- The attempted-queries section of the expert prompt as the text describes
it: absent for an empty list, otherwise the heading followed by one quoted line
per query, in the order of the list. -/
def attemptsSection : List String → String
  | [] => ""
  | q :: qs => "Уже опробованные Youtrack-запросы: \n" ++ quotedLines (q :: qs)

/-- The error section of the expert prompt: absent without a search error. -/
def errorSection : Option String → String
  | some e => " Ошибка от последнего запроса: " ++ e
  | none => ""

/-- The state and the trace with which the head of the loop is passed after
`k` passes through the body that ended by going to the next iteration; `none`
when the loop has ended before. -/
def headAfter (cfg : Config) (w : World) (userQuestion : String) :
    Nat → Option (LoopState × List Event)
  | 0 => some (initialState userQuestion, preamble cfg w)
  | k + 1 =>
    match headAfter cfg w userQuestion k with
    | none => none
    | some (st, tr) =>
      if st.step ≤ cfg.maxSteps then
        match st.searchQueue with
        | [] => none
        | query :: rest =>
          match loopBody cfg w userQuestion st query rest tr with
          | (Control.again st1, tr1) => some ({ st1 with step := st1.step + 1 }, tr1)
          | (Control.leave, _) => none
          | (Control.finished, _) => none
          | (Control.failed, _) => none
      else none

/-- The action to which the extractor's decision parses in a pass through the
body that gets as far as parsing it. -/
def passAction (cfg : Config) (w : World) (userQuestion : String) (st : LoopState)
    (query : String) (tr : List Event) : Option AgentAction :=
  match mergeIssues cfg (truncateIssues cfg (searchResult cfg w query tr).data) st.seenIssues with
  | none => none
  | some seen =>
    match expertResult cfg w userQuestion st seen (searchResult cfg w query tr).err
        (afterSearch cfg w query tr) with
    | ChatResult.panicked => none
    | ChatResult.error _ => none
    | ChatResult.ok raw =>
      if st.step = cfg.maxSteps then none
      else
        match extractorResult cfg w (trimSpace (removeThinkTags raw))
            (afterExpert cfg w userQuestion st seen (searchResult cfg w query tr).err
              (afterSearch cfg w query tr)) with
        | ChatResult.panicked => none
        | ChatResult.error _ => none
        | ChatResult.ok decision => w.jsonUnmarshal decision

/-- Lines 324-327: the check of the `-max-steps` flag; `true` when the value
is refused. -/
def maxStepsRefused (maxSteps : Int) : Bool :=
  decide (maxSteps < 0)

/-! # Theorems -/

/-! ## Lemmas on the registry -/

theorem singleValueName_of_named {v : JVal} (h : namedValue v = true) :
    ∃ o, singleValueName v = some o := by
  unfold namedValue at h
  cases hv : v.asObject with
  | none => exact ⟨none, by simp [singleValueName, hv]⟩
  | some m =>
    rw [hv] at h
    simp only at h
    cases hn : (JObject.get m "name").asString with
    | none => rw [hn] at h; simp at h
    | some s => exact ⟨some s, by simp [singleValueName, hv, hn]⟩

theorem appendReviewers_of_named :
    ∀ (vs : List JVal) (acc : List String), vs.all namedValue = true →
      ∃ rs, appendReviewers vs acc = some rs
  | [], acc, _ => ⟨acc, rfl⟩
  | v :: vs, acc, h => by
    simp only [List.all_cons, Bool.and_eq_true] at h
    obtain ⟨hv, hvs⟩ := h
    unfold namedValue at hv
    cases ho : v.asObject with
    | none =>
      simp only [appendReviewers, ho]
      exact appendReviewers_of_named vs acc hvs
    | some m =>
      rw [ho] at hv
      simp only at hv
      cases hn : (JObject.get m "name").asString with
      | none => rw [hn] at hv; simp at hv
      | some s =>
        simp only [appendReviewers, ho, hn]
        exact appendReviewers_of_named vs (acc ++ [s]) hvs

theorem scanCustomField_of_wellFormed (acc : CustomFields) {cf : JVal}
    (h : wellFormedField cf = true) : ∃ acc1, scanCustomField acc cf = some acc1 := by
  unfold wellFormedField at h
  unfold scanCustomField
  cases ho : cf.asObject with
  | none => exact ⟨acc, rfl⟩
  | some cfMap =>
    rw [ho] at h
    simp only at h ⊢
    cases hn : (JObject.get cfMap "name").asString with
    | none => rw [hn] at h; simp at h
    | some name =>
      rw [hn] at h
      simp only at h ⊢
      by_cases h1 : name = "State"
      · simp only [h1, true_or, if_true] at h ⊢
        obtain ⟨o, ho⟩ := singleValueName_of_named h
        rw [ho]; cases o <;> simp
      · by_cases h2 : name = "Assignee"
        · simp only [h2, true_or, or_true, if_true] at h ⊢
          obtain ⟨o, ho⟩ := singleValueName_of_named h
          rw [ho]; cases o <;> simp
        · by_cases h3 : name = "Priority"
          · simp only [h3, or_true, if_true] at h ⊢
            obtain ⟨o, ho⟩ := singleValueName_of_named h
            rw [ho]; cases o <;> simp
          · simp only [h1, h2, h3, or_self, if_false] at h ⊢
            by_cases h4 : name = "Reviewers"
            · simp only [h4, if_true] at h ⊢
              cases hl : (JObject.get cfMap "value").asArray with
              | none => simp
              | some vlist =>
                rw [hl] at h
                simp only at h
                obtain ⟨rs, hrs⟩ := appendReviewers_of_named vlist acc.reviewers h
                simp [hrs]
            · simp [h4]

theorem scanCustomFields_of_wellFormed :
    ∀ (cfs : List JVal) (acc : CustomFields), cfs.all wellFormedField = true →
      ∃ acc1, scanCustomFields cfs acc = some acc1
  | [], acc, _ => ⟨acc, rfl⟩
  | cf :: cfs, acc, h => by
    simp only [List.all_cons, Bool.and_eq_true] at h
    obtain ⟨a1, ha1⟩ := scanCustomField_of_wellFormed acc h.1
    unfold scanCustomFields
    rw [ha1]
    exact scanCustomFields_of_wellFormed cfs a1 h.2

theorem buildRecord_of_wellFormed (cfg : Config) {it : JObject}
    (h : wellFormedIssue it = true) :
    ∃ r, buildRecord cfg it = some r ∧ (JObject.get it "idReadable").asString = some r.id := by
  unfold wellFormedIssue at h
  simp only [Bool.and_eq_true] at h
  obtain ⟨hid, hcf⟩ := h
  unfold buildRecord
  cases hi : (JObject.get it "idReadable").asString with
  | none => rw [hi] at hid; simp at hid
  | some id =>
    simp only
    have hex : ∃ cf, extractCustomFields it = some cf := by
      unfold extractCustomFields
      cases hl : (JObject.get it "customFields").asArray with
      | none => exact ⟨_, rfl⟩
      | some cfList =>
        rw [hl] at hcf
        exact scanCustomFields_of_wellFormed cfList _ hcf
    obtain ⟨cf, hcf1⟩ := hex
    rw [hcf1]
    exact ⟨_, rfl, rfl⟩

theorem mergeIssues_of_wellFormed (cfg : Config) :
    ∀ (l : List JObject) (reg : Registry), (∀ it ∈ l, wellFormedIssue it = true) →
      ∃ reg1, mergeIssues cfg l reg = some reg1
  | [], reg, _ => ⟨reg, rfl⟩
  | it :: rest, reg, h => by
    obtain ⟨r, hr, _⟩ := buildRecord_of_wellFormed cfg (h it (List.mem_cons_self _ _))
    unfold mergeIssues
    rw [hr]
    exact mergeIssues_of_wellFormed cfg rest _ (fun x hx => h x (List.mem_cons_of_mem _ hx))

theorem mem_truncateIssues (cfg : Config) (l : List JObject) {it : JObject}
    (h : it ∈ truncateIssues cfg l) : it ∈ l := by
  unfold truncateIssues at h
  split at h
  · exact List.mem_of_mem_take h
  · exact h

theorem assign_keys (reg : Registry) (id : String) (r : IssueRecord) :
    ∀ k, k ∈ (Registry.assign reg id r).map Prod.fst ↔ k = id ∨ k ∈ reg.map Prod.fst := by
  induction reg with
  | nil => intro k; simp [Registry.assign]
  | cons p rest ih =>
    obtain ⟨k0, v0⟩ := p
    intro k
    unfold Registry.assign
    split
    · rename_i h; subst h; simp
    · simp only [List.map_cons, List.mem_cons, ih k]
      tauto

theorem assign_ok {reg : Registry} (h : RegistryOK reg) (r : IssueRecord) :
    RegistryOK (Registry.assign reg r.id r) := by
  induction reg with
  | nil =>
    refine ⟨by simp [Registry.assign], ?_⟩
    intro p hp
    simp only [Registry.assign, List.mem_singleton] at hp
    subst hp; rfl
  | cons p rest ih =>
    obtain ⟨k0, v0⟩ := p
    obtain ⟨hnd, hid⟩ := h
    simp only [List.map_cons, List.nodup_cons] at hnd
    have hrest : RegistryOK rest := ⟨hnd.2, fun q hq => hid q (List.mem_cons_of_mem _ hq)⟩
    unfold Registry.assign
    split
    · rename_i hk
      refine ⟨?_, ?_⟩
      · simp only [List.map_cons, List.nodup_cons]
        exact ⟨hk ▸ hnd.1, hnd.2⟩
      · intro q hq
        rcases List.mem_cons.1 hq with hq | hq
        · subst hq; rfl
        · exact hid q (List.mem_cons_of_mem _ hq)
    · rename_i hk
      obtain ⟨ihnd, ihid⟩ := ih hrest
      refine ⟨?_, ?_⟩
      · simp only [List.map_cons, List.nodup_cons]
        refine ⟨?_, ihnd⟩
        intro hmem
        rcases (assign_keys rest r.id r k0).1 hmem with h1 | h1
        · exact hk h1
        · exact hnd.1 h1
      · intro q hq
        rcases List.mem_cons.1 hq with hq | hq
        · subst hq; exact hid _ (List.mem_cons_self _ _)
        · exact ihid q hq

theorem lookup_cons_eq {β : Type} (k a : String) (b : β) (l : List (String × β)) :
    List.lookup k ((a, b) :: l) = if k = a then some b else List.lookup k l := by
  by_cases h : k = a
  · subst h; simp [List.lookup]
  · have hb : (k == a) = false := by simpa using h
    simp [List.lookup, hb, h]

theorem assign_lookup (reg : Registry) (id : String) (r : IssueRecord) (k : String) :
    (Registry.assign reg id r).lookup k = if k = id then some r else reg.lookup k := by
  induction reg with
  | nil =>
    rw [Registry.assign, lookup_cons_eq]
  | cons p rest ih =>
    obtain ⟨k0, v0⟩ := p
    unfold Registry.assign
    by_cases h0 : k0 = id
    · subst h0
      simp only [if_true, lookup_cons_eq]
      split <;> rfl
    · simp only [h0, if_false, lookup_cons_eq, ih]
      by_cases h : k = k0
      · subst h
        simp [h0]
      · simp [h]

theorem snapshot_filter {reg : Registry} (h : RegistryOK reg) (id : String) :
    (snapshot reg).filter (fun x => decide (x.id = id)) = (reg.lookup id).toList := by
  induction reg with
  | nil => rfl
  | cons p rest ih =>
    obtain ⟨k0, v0⟩ := p
    obtain ⟨hnd, hid⟩ := h
    simp only [List.map_cons, List.nodup_cons] at hnd
    have hrest : RegistryOK rest := ⟨hnd.2, fun q hq => hid q (List.mem_cons_of_mem _ hq)⟩
    have hv0 : v0.id = k0 := hid (k0, v0) (List.mem_cons_self _ _)
    have ih1 := ih hrest
    simp only [snapshot] at ih1 ⊢
    rw [lookup_cons_eq]
    by_cases hk : id = k0
    · subst hk
      have hnone : rest.lookup id = none := by
        rw [List.lookup_eq_none_iff]
        intro q hq
        have hne : ¬ id = q.1 := fun hh => hnd.1 (hh ▸ List.mem_map_of_mem Prod.fst hq)
        simpa using hne
      rw [hnone] at ih1
      simp [List.filter_cons, hv0, ih1]
    · have hne : ¬ v0.id = id := fun hh => hk (hh.symm.trans hv0)
      simp [List.filter_cons, hne, ih1, hk]

theorem mergeIssues_lookup (cfg : Config) :
    ∀ (l : List JObject) (reg reg1 : Registry), RegistryOK reg →
      mergeIssues cfg l reg = some reg1 →
      RegistryOK reg1 ∧ ∀ id, reg1.lookup id =
        match lastWithId id l with
        | some it => buildRecord cfg it
        | none => reg.lookup id
  | [], reg, reg1, hok, h => by
    simp only [mergeIssues, Option.some.injEq] at h
    subst h
    exact ⟨hok, fun id => rfl⟩
  | it :: rest, reg, reg1, hok, h => by
    unfold mergeIssues at h
    cases hb : buildRecord cfg it with
    | none => rw [hb] at h; simp at h
    | some r =>
      rw [hb] at h
      simp only at h
      obtain ⟨hok1, hl⟩ := mergeIssues_lookup cfg rest _ reg1 (assign_ok hok r) h
      refine ⟨hok1, fun id => ?_⟩
      rw [hl id]
      have hrid : (JObject.get it "idReadable").asString = some r.id := by
        unfold buildRecord at hb
        cases hi : (JObject.get it "idReadable").asString with
        | none => rw [hi] at hb; simp at hb
        | some i =>
          rw [hi] at hb
          simp only at hb
          cases he : extractCustomFields it with
          | none => rw [he] at hb; simp at hb
          | some cf =>
            rw [he] at hb
            simp only [Option.some.injEq] at hb
            subst hb; rfl
      simp only [lastWithId]
      cases lastWithId id rest with
      | some x => rfl
      | none =>
        simp only [assign_lookup, hrid, Option.some.injEq]
        by_cases hid : id = r.id
        · subst hid; simp [hb]
        · have : ¬ r.id = id := fun h => hid h.symm
          simp [hid, this]

theorem mergeAll_eq_join (cfg : Config) :
    ∀ (ls : List (List JObject)) (reg : Registry),
      mergeAll cfg ls reg = mergeIssues cfg ls.flatten reg
  | [], reg => rfl
  | l :: ls, reg => by
    have happ : ∀ (a b : List JObject) (r : Registry),
        mergeIssues cfg (a ++ b) r =
          match mergeIssues cfg a r with
          | some r1 => mergeIssues cfg b r1
          | none => none := by
      intro a
      induction a with
      | nil => intro b r; rfl
      | cons x xs ih =>
        intro b r
        simp only [List.cons_append, mergeIssues]
        cases buildRecord cfg x with
        | none => rfl
        | some rr => exact ih b _
    simp only [mergeAll, List.flatten_cons, happ]
    cases mergeIssues cfg l reg with
    | none => rfl
    | some r1 => exact mergeAll_eq_join cfg ls r1

/-! ## Lemmas on traces -/

theorem writesOf_append (a b : List Event) : writesOf (a ++ b) = writesOf a ++ writesOf b := by
  induction a with
  | nil => rfl
  | cons e es ih => cases e <;> simp [writesOf, ih]

theorem plain_nil : Plain [] := by
  intro x hx
  simp [writesOf] at hx

theorem plain_append {a b : List Event} (ha : Plain a) (hb : Plain b) : Plain (a ++ b) := by
  intro x hx
  rw [writesOf_append, List.mem_append] at hx
  rcases hx with hx | hx
  · exact ha x hx
  · exact hb x hx

theorem extends_refl (tr : List Event) : Extends tr tr :=
  ⟨[], by simp, plain_nil⟩

theorem extends_trans {a b c : List Event} (h1 : Extends a b) (h2 : Extends b c) :
    Extends a c := by
  obtain ⟨m1, rfl, p1⟩ := h1
  obtain ⟨m2, rfl, p2⟩ := h2
  exact ⟨m1 ++ m2, by simp, plain_append p1 p2⟩

theorem extends_notifyChunk (cfg : Config) (w : World) (tr : List Event) (m : String) :
    Extends tr (notifyChunk cfg w tr m) := by
  refine ⟨_, rfl, ?_⟩
  intro x hx
  simp only [writesOf, List.mem_singleton] at hx
  subst hx
  simp [Write.isPlain, Chunk.carriesRole, Chunk.carriesStop, buildChunk]

theorem extends_search (tr : List Event) (p : String) (ps : List (String × String)) :
    Extends tr (tr ++ [Event.youtrackRequest p ps]) :=
  ⟨_, rfl, by intro x hx; simp [writesOf] at hx⟩

theorem extends_chat (tr : List Event) (ms : List Message) (a b : Nat) (f : Option JVal) :
    Extends tr (tr ++ [Event.llmChat ms a b f]) :=
  ⟨_, rfl, by intro x hx; simp [writesOf] at hx⟩

theorem closes_notifyEnd (cfg : Config) (w : World) (tr : List Event) (m : String) :
    Closes tr (notifyEnd cfg w tr m) :=
  ⟨[], buildChunk cfg (w.now tr) cfg.streamID m false true, by simp [notifyEnd], plain_nil,
    by simp [Chunk.carriesRole, buildChunk], by simp [Chunk.carriesStop, buildChunk]⟩

theorem extends_closes {a b c : List Event} (h1 : Extends a b) (h2 : Closes b c) :
    Closes a c := by
  obtain ⟨m1, rfl, p1⟩ := h1
  obtain ⟨m2, last, rfl, p2, hr, hs⟩ := h2
  exact ⟨m1 ++ m2, last, by simp, plain_append p1 p2, hr, hs⟩

theorem extends_afterSearch (cfg : Config) (w : World) (query : String) (tr : List Event) :
    Extends tr (afterSearch cfg w query tr) :=
  extends_trans (extends_trans (extends_notifyChunk cfg w tr _) (extends_search _ _ _))
    (extends_notifyChunk cfg w _ _)

theorem extends_afterExpert (cfg : Config) (w : World) (userQuestion : String)
    (st : LoopState) (seen : Registry) (searchErr : Option String) (tr : List Event) :
    Extends tr (afterExpert cfg w userQuestion st seen searchErr tr) :=
  extends_trans (extends_notifyChunk cfg w tr _) (extends_chat _ _ _ _ _)

theorem extends_afterExtractor (cfg : Config) (w : World) (reasoning : String)
    (tr : List Event) : Extends tr (afterExtractor cfg w reasoning tr) :=
  extends_trans (extends_notifyChunk cfg w tr _) (extends_chat _ _ _ _ _)

theorem bodyShape_of_extends {st : LoopState} {a b : List Event} (h : Extends a b) :
    ∀ res : Control × List Event, BodyShape st b res → BodyShape st a res
  | (Control.again _, _), hs => ⟨hs.1, extends_trans h hs.2⟩
  | (Control.leave, _), hs => extends_trans h hs
  | (Control.finished, _), hs => extends_closes h hs
  | (Control.failed, _), hs => extends_trans h hs

theorem dispatch_shape (cfg : Config) (w : World) (st : LoopState) (rest : List String)
    (seen : Registry) (attempts : List String) (decision : String) (tr : List Event) :
    BodyShape st tr (dispatch cfg w st rest seen attempts decision tr) := by
  unfold dispatch
  cases w.jsonUnmarshal decision with
  | none => exact ⟨rfl, extends_refl tr⟩
  | some action =>
    simp only
    split
    · exact extends_closes (extends_notifyChunk cfg w tr _) (closes_notifyEnd cfg w _ _)
    · split
      · refine ⟨rfl, ?_⟩
        split
        · exact extends_notifyChunk cfg w tr _
        · exact extends_refl tr
      · exact extends_refl tr

theorem reason_shape (cfg : Config) (w : World) (userQuestion : String) (st : LoopState)
    (rest : List String) (seen : Registry) (searchErr : Option String) (query : String)
    (tr : List Event) :
    BodyShape st tr (reason cfg w userQuestion st rest seen searchErr query tr) := by
  unfold reason
  have e2 := extends_afterExpert cfg w userQuestion st seen searchErr tr
  split
  · exact e2
  · exact e2
  · rename_i raw _
    split
    · exact extends_closes (extends_trans e2 (extends_notifyChunk cfg w _ _))
        (closes_notifyEnd cfg w _ _)
    · have e4 := extends_trans e2 (extends_afterExtractor cfg w
        (trimSpace (removeThinkTags raw)) _)
      split
      · exact e4
      · exact e4
      · exact bodyShape_of_extends e4 _ (dispatch_shape cfg w st rest seen _ _ _)

theorem loopBody_shape (cfg : Config) (w : World) (userQuestion : String) (st : LoopState)
    (query : String) (rest : List String) (tr : List Event) :
    BodyShape st tr (loopBody cfg w userQuestion st query rest tr) := by
  unfold loopBody
  have e3 := extends_afterSearch cfg w query tr
  split
  · exact e3
  · exact bodyShape_of_extends e3 _ (reason_shape cfg w userQuestion st rest _ _ query _)

theorem loopBody_not_failed (cfg : Config) (w : World) (hw : WellFormedSearch w)
    (hc : ChatReturns w)
    (userQuestion : String) (st : LoopState) (query : String) (rest : List String)
    (tr : List Event) (out : List Event) :
    loopBody cfg w userQuestion st query rest tr ≠ (Control.failed, out) := by
  obtain ⟨seen, hseen⟩ := mergeIssues_of_wellFormed cfg
    (truncateIssues cfg (searchResult cfg w query tr).data) st.seenIssues
    (fun it hit => hw _ _ _ it (mem_truncateIssues cfg _ hit))
  unfold loopBody
  rw [hseen]
  simp only
  unfold reason
  split
  · rename_i hp
    exact absurd hp (hc _ _ _ _ _)
  · simp
  · split
    · simp
    · split
      · rename_i hp
        exact absurd hp (hc _ _ _ _ _)
      · simp
      · unfold dispatch
        split
        · simp
        · split
          · simp
          · split <;> simp

theorem fallback_closes (cfg : Config) (w : World) (tr : List Event) :
    (fallback cfg w tr).exit = Exit.returned ∧ Closes tr (fallback cfg w tr).trace :=
  ⟨rfl, extends_closes (extends_notifyChunk cfg w tr _) (closes_notifyEnd cfg w _ _)⟩

theorem forLoop_closes (cfg : Config) (w : World) (hw : WellFormedSearch w)
    (hc : ChatReturns w)
    (userQuestion : String) :
    ∀ (fuel : Nat) (st : LoopState) (tr : List Event), cfg.maxSteps + 1 - st.step < fuel →
      (forLoop cfg w userQuestion fuel st tr).exit = Exit.returned ∧
      Closes tr (forLoop cfg w userQuestion fuel st tr).trace
  | 0, st, tr, h => by omega
  | fuel + 1, st, tr, h => by
    unfold forLoop
    split
    · rename_i hle
      split
      · exact fallback_closes cfg w tr
      · rename_i query rest _
        have hb := loopBody_shape cfg w userQuestion st query rest tr
        have hnf := loopBody_not_failed cfg w hw hc userQuestion st query rest tr
        revert hb hnf
        generalize loopBody cfg w userQuestion st query rest tr = res
        intro hb hnf
        obtain ⟨c, out⟩ := res
        cases c with
        | again st1 =>
          obtain ⟨hstep, hext⟩ := hb
          have ih := forLoop_closes cfg w hw hc userQuestion fuel
            { st1 with step := st1.step + 1 } out (by simp only [hstep]; omega)
          exact ⟨ih.1, extends_closes hext ih.2⟩
        | leave =>
          have hf := fallback_closes cfg w out
          exact ⟨hf.1, extends_closes hb hf.2⟩
        | finished => exact ⟨rfl, hb⟩
        | failed => exact (hnf out rfl).elim
    · exact fallback_closes cfg w tr

/-! ## Lemmas on the number of calls -/

theorem searchCalls_append (a b : List Event) :
    searchCalls (a ++ b) = searchCalls a + searchCalls b := by
  simp [searchCalls, List.countP_append]

theorem expertCalls_append (a b : List Event) :
    expertCalls (a ++ b) = expertCalls a + expertCalls b := by
  simp [expertCalls, List.countP_append]

theorem calls_notifyChunk (cfg : Config) (w : World) (tr : List Event) (m : String) :
    searchCalls (notifyChunk cfg w tr m) = searchCalls tr ∧
    expertCalls (notifyChunk cfg w tr m) = expertCalls tr := by
  simp [notifyChunk, searchCalls, expertCalls, List.countP_append, List.countP_cons,
    Event.isSearch, Event.isExpertCall]

theorem calls_notifyEnd (cfg : Config) (w : World) (tr : List Event) (m : String) :
    searchCalls (notifyEnd cfg w tr m) = searchCalls tr ∧
    expertCalls (notifyEnd cfg w tr m) = expertCalls tr := by
  simp [notifyEnd, searchCalls, expertCalls, List.countP_append, List.countP_cons,
    Event.isSearch, Event.isExpertCall]

theorem calls_fallback (cfg : Config) (w : World) (tr : List Event) :
    searchCalls (fallback cfg w tr).trace = searchCalls tr ∧
    expertCalls (fallback cfg w tr).trace = expertCalls tr := by
  unfold fallback
  simp only [(calls_notifyEnd cfg w _ _).1, (calls_notifyEnd cfg w _ _).2,
    (calls_notifyChunk cfg w _ _).1, (calls_notifyChunk cfg w _ _).2, and_self]

theorem calls_afterSearch (cfg : Config) (w : World) (query : String) (tr : List Event) :
    searchCalls (afterSearch cfg w query tr) = searchCalls tr + 1 ∧
    expertCalls (afterSearch cfg w query tr) = expertCalls tr := by
  unfold afterSearch searchAnnounce
  simp [(calls_notifyChunk cfg w _ _).1, (calls_notifyChunk cfg w _ _).2, searchCalls_append,
    expertCalls_append]
  simp [searchCalls, expertCalls, Event.isSearch, Event.isExpertCall]

theorem calls_afterExpert (cfg : Config) (w : World) (userQuestion : String)
    (st : LoopState) (seen : Registry) (searchErr : Option String) (tr : List Event) :
    searchCalls (afterExpert cfg w userQuestion st seen searchErr tr) = searchCalls tr ∧
    expertCalls (afterExpert cfg w userQuestion st seen searchErr tr) = expertCalls tr + 1 := by
  unfold afterExpert
  simp [(calls_notifyChunk cfg w _ _).1, (calls_notifyChunk cfg w _ _).2, searchCalls_append,
    expertCalls_append]
  simp [searchCalls, expertCalls, Event.isSearch, Event.isExpertCall]

theorem calls_afterExtractor (cfg : Config) (w : World) (reasoning : String)
    (tr : List Event) :
    searchCalls (afterExtractor cfg w reasoning tr) = searchCalls tr ∧
    expertCalls (afterExtractor cfg w reasoning tr) = expertCalls tr := by
  unfold afterExtractor
  simp [(calls_notifyChunk cfg w _ _).1, (calls_notifyChunk cfg w _ _).2, searchCalls_append,
    expertCalls_append]
  simp [searchCalls, expertCalls, Event.isSearch, Event.isExpertCall, responseFormat]

theorem dispatch_calls (cfg : Config) (w : World) (st : LoopState) (rest : List String)
    (seen : Registry) (attempts : List String) (decision : String) (tr : List Event) :
    searchCalls (dispatch cfg w st rest seen attempts decision tr).2 = searchCalls tr ∧
    expertCalls (dispatch cfg w st rest seen attempts decision tr).2 = expertCalls tr ∧
    ∀ st1, (dispatch cfg w st rest seen attempts decision tr).1 = Control.again st1 →
      st1.step = st.step := by
  unfold dispatch
  cases w.jsonUnmarshal decision with
  | none =>
    refine ⟨rfl, rfl, ?_⟩
    intro st1 h
    simp only [Control.again.injEq] at h
    subst h; rfl
  | some action =>
    simp only
    split
    · simp [(calls_notifyEnd cfg w _ _).1, (calls_notifyEnd cfg w _ _).2,
        (calls_notifyChunk cfg w _ _).1, (calls_notifyChunk cfg w _ _).2]
    · split
      · refine ⟨?_, ?_, ?_⟩
        · simp only; split
          · exact (calls_notifyChunk cfg w _ _).1
          · rfl
        · simp only; split
          · exact (calls_notifyChunk cfg w _ _).2
          · rfl
        · intro st1 h
          simp only [Control.again.injEq] at h
          subst h; rfl
      · simp

theorem loopBody_calls (cfg : Config) (w : World) (userQuestion : String) (st : LoopState)
    (query : String) (rest : List String) (tr : List Event) :
    BodyCalls st tr (loopBody cfg w userQuestion st query rest tr) := by
  unfold BodyCalls loopBody
  have hs := calls_afterSearch cfg w query tr
  split
  · simp [hs.1, hs.2]
  · rename_i seen _
    have he := calls_afterExpert cfg w userQuestion st seen (searchResult cfg w query tr).err
      (afterSearch cfg w query tr)
    unfold reason
    split
    · simp [he.1, he.2, hs.1, hs.2]
    · simp [he.1, he.2, hs.1, hs.2]
    · rename_i raw _
      split
      · simp [(calls_notifyEnd cfg w _ _).1, (calls_notifyEnd cfg w _ _).2,
          (calls_notifyChunk cfg w _ _).1, (calls_notifyChunk cfg w _ _).2, he.1, he.2, hs.1,
          hs.2]
      · have hx := calls_afterExtractor cfg w (trimSpace (removeThinkTags raw))
          (afterExpert cfg w userQuestion st seen (searchResult cfg w query tr).err
            (afterSearch cfg w query tr))
        split
        · simp [hx.1, hx.2, he.1, he.2, hs.1, hs.2]
        · simp [hx.1, hx.2, he.1, he.2, hs.1, hs.2]
        · rename_i decision _
          have hd := dispatch_calls cfg w st rest seen (st.attemptQueries ++ [query]) decision
            (afterExtractor cfg w (trimSpace (removeThinkTags raw))
              (afterExpert cfg w userQuestion st seen (searchResult cfg w query tr).err
                (afterSearch cfg w query tr)))
          refine ⟨?_, ?_, hd.2.2⟩
          · rw [hd.1, hx.1, he.1, hs.1]
          · rw [hd.2.1, hx.2, he.2, hs.2]

theorem forLoop_calls (cfg : Config) (w : World) (userQuestion : String) :
    ∀ (fuel : Nat) (st : LoopState) (tr : List Event),
      searchCalls (forLoop cfg w userQuestion fuel st tr).trace ≤
        searchCalls tr + (cfg.maxSteps + 1 - st.step) ∧
      expertCalls (forLoop cfg w userQuestion fuel st tr).trace ≤
        expertCalls tr + (cfg.maxSteps + 1 - st.step)
  | 0, st, tr => by simp [forLoop]
  | fuel + 1, st, tr => by
    unfold forLoop
    split
    · rename_i hle
      split
      · simp [(calls_fallback cfg w tr).1, (calls_fallback cfg w tr).2]
      · rename_i query rest _
        have hb := loopBody_calls cfg w userQuestion st query rest tr
        revert hb
        generalize loopBody cfg w userQuestion st query rest tr = res
        intro hb
        obtain ⟨c, out⟩ := res
        obtain ⟨h1, h2, h3⟩ := hb
        simp only at h1 h2 h3
        cases c with
        | again st1 =>
          have hstep := h3 st1 rfl
          have ih := forLoop_calls cfg w userQuestion fuel { st1 with step := st1.step + 1 } out
          simp only [hstep] at ih ⊢
          omega
        | leave =>
          simp only [(calls_fallback cfg w out).1, (calls_fallback cfg w out).2]
          omega
        | finished => simp only; omega
        | failed => simp only; omega
    · simp [(calls_fallback cfg w tr).1, (calls_fallback cfg w tr).2]

/-! ## One pass through the loop, case by case -/

theorem truncateIssues_eq_take (cfg : Config) (l : List JObject) :
    truncateIssues cfg l = l.take cfg.youtrackSearchLimit := by
  unfold truncateIssues
  split
  · rfl
  · rename_i h
    exact (List.take_of_length_le (by omega)).symm

theorem forLoop_succ (cfg : Config) (w : World) (userQuestion : String) (fuel : Nat)
    (st : LoopState) (tr : List Event) (query : String) (rest : List String)
    (hle : st.step ≤ cfg.maxSteps) (hq : st.searchQueue = query :: rest) :
    forLoop cfg w userQuestion (fuel + 1) st tr =
      match loopBody cfg w userQuestion st query rest tr with
      | (Control.again st1, tr1) =>
        forLoop cfg w userQuestion fuel { st1 with step := st1.step + 1 } tr1
      | (Control.leave, tr1) => fallback cfg w tr1
      | (Control.finished, tr1) => { exit := Exit.returned, trace := tr1 }
      | (Control.failed, tr1) => { exit := Exit.panicked, trace := tr1 } := by
  rw [forLoop]
  simp only [hle, if_true, hq]

theorem forLoop_empty (cfg : Config) (w : World) (userQuestion : String) (fuel : Nat)
    (st : LoopState) (tr : List Event) (hq : st.searchQueue = []) :
    forLoop cfg w userQuestion (fuel + 1) st tr = fallback cfg w tr := by
  rw [forLoop]
  split
  · simp only [hq]
  · rfl

theorem mem_of_bodyShape {st : LoopState} {tr : List Event} :
    ∀ res : Control × List Event, BodyShape st tr res → ∀ e ∈ tr, e ∈ res.2
  | (Control.again _, _), ⟨_, mid, hout, _⟩, e, he => by
    simp only [hout, List.mem_append]; exact Or.inl he
  | (Control.leave, _), ⟨mid, hout, _⟩, e, he => by
    simp only [hout, List.mem_append]; exact Or.inl he
  | (Control.finished, _), ⟨mid, last, hout, _⟩, e, he => by
    simp only [hout, List.mem_append]; exact Or.inl (Or.inl he)
  | (Control.failed, _), ⟨mid, hout, _⟩, e, he => by
    simp only [hout, List.mem_append]; exact Or.inl he

theorem dispatch_registry (cfg : Config) (w : World) (st : LoopState) (rest : List String)
    (seen : Registry) (attempts : List String) (decision : String) (tr : List Event) :
    ∀ st1, (dispatch cfg w st rest seen attempts decision tr).1 = Control.again st1 →
      st1.seenIssues = seen := by
  intro st1
  unfold dispatch
  cases w.jsonUnmarshal decision with
  | none =>
    intro h
    simp only [Control.again.injEq] at h
    subst h; rfl
  | some action =>
    simp only
    split
    · intro h; simp at h
    · split
      · intro h
        simp only [Control.again.injEq] at h
        subst h; rfl
      · intro h; simp at h

theorem forLoop_fuel_enough (cfg : Config) (w : World) (userQuestion : String) :
    ∀ (fuel : Nat) (st : LoopState) (tr : List Event), cfg.maxSteps + 1 - st.step < fuel →
      (forLoop cfg w userQuestion fuel st tr).exit ≠ Exit.outOfFuel
  | 0, st, tr, h => by omega
  | fuel + 1, st, tr, h => by
    unfold forLoop
    split
    · rename_i hle
      split
      · simp [fallback]
      · rename_i query rest _
        have hb := loopBody_calls cfg w userQuestion st query rest tr
        revert hb
        generalize loopBody cfg w userQuestion st query rest tr = res
        intro hb
        obtain ⟨c, out⟩ := res
        obtain ⟨_, _, h3⟩ := hb
        simp only at h3
        cases c with
        | again st1 =>
          have hstep := h3 st1 rfl
          exact forLoop_fuel_enough cfg w userQuestion fuel { st1 with step := st1.step + 1 } out
            (by simp only [hstep]; omega)
        | leave => simp [fallback]
        | finished => simp
        | failed => simp
    · simp [fallback]

/-! ## Lemmas on `removeThinkTags` -/

theorem openTag_eq : openTag = ['<', 't', 'h', 'i', 'n', 'k', '>'] := rfl

theorem closeTag_eq : closeTag = ['<', '/', 't', 'h', 'i', 'n', 'k', '>'] := rfl

theorem stripMatches_sublist : ∀ (s : List Char) (k : Nat), (stripMatches k s).Sublist s
  | [], k => by cases k <;> simp [stripMatches]
  | c :: cs, k + 1 => by
    rw [stripMatches]
    exact (stripMatches_sublist cs k).cons c
  | c :: cs, 0 => by
    rw [stripMatches]
    split
    · exact (stripMatches_sublist cs _).cons c
    · exact (stripMatches_sublist cs 0).cons₂ c

theorem stripMatches_skip : ∀ (x y : List Char), stripMatches x.length (x ++ y) = stripMatches 0 y
  | [], y => rfl
  | c :: cs, y => by
    simp only [List.length_cons, List.cons_append, stripMatches]
    exact stripMatches_skip cs y

/-- The opening delimiter does not begin inside a text that does not contain
it and that is followed by the delimiter itself. -/
theorem openTag_not_prefix (x : Char) (a rest : List Char) (h : ¬ openTag <:+: x :: a) :
    openTag.isPrefixOf (x :: a ++ openTag ++ rest) = false := by
  rw [Bool.eq_false_iff]
  intro hp
  rw [List.isPrefixOf_iff_prefix, openTag_eq] at hp
  rw [openTag_eq] at h
  rcases a with _ | ⟨a1, _ | ⟨a2, _ | ⟨a3, _ | ⟨a4, _ | ⟨a5, _ | ⟨a6, a⟩⟩⟩⟩⟩⟩
  all_goals simp only [List.cons_append, List.nil_append, List.cons_prefix_cons] at hp
  · exact absurd hp.2.1 (by decide)
  · exact absurd hp.2.2.1 (by decide)
  · exact absurd hp.2.2.2.1 (by decide)
  · exact absurd hp.2.2.2.2.1 (by decide)
  · exact absurd hp.2.2.2.2.2.1 (by decide)
  · exact absurd hp.2.2.2.2.2.2.1 (by decide)
  · obtain ⟨h0, h1, h2, h3, h4, h5, h6, _⟩ := hp
    subst h0 h1 h2 h3 h4 h5 h6
    exact h ⟨[], a, rfl⟩

/-- The closing delimiter does not begin inside a text that does not contain
it and that is followed by the delimiter itself. -/
theorem closeTag_not_prefix (x : Char) (b rest : List Char) (h : ¬ closeTag <:+: x :: b) :
    closeTag.isPrefixOf (x :: b ++ closeTag ++ rest) = false := by
  rw [Bool.eq_false_iff]
  intro hp
  rw [List.isPrefixOf_iff_prefix, closeTag_eq] at hp
  rw [closeTag_eq] at h
  rcases b with _ | ⟨b1, _ | ⟨b2, _ | ⟨b3, _ | ⟨b4, _ | ⟨b5, _ | ⟨b6, _ | ⟨b7, b⟩⟩⟩⟩⟩⟩⟩
  all_goals simp only [List.cons_append, List.nil_append, List.cons_prefix_cons] at hp
  · exact absurd hp.2.1 (by decide)
  · exact absurd hp.2.2.1 (by decide)
  · exact absurd hp.2.2.2.1 (by decide)
  · exact absurd hp.2.2.2.2.1 (by decide)
  · exact absurd hp.2.2.2.2.2.1 (by decide)
  · exact absurd hp.2.2.2.2.2.2.1 (by decide)
  · exact absurd hp.2.2.2.2.2.2.2.1 (by decide)
  · obtain ⟨h0, h1, h2, h3, h4, h5, h6, h7, _⟩ := hp
    subst h0 h1 h2 h3 h4 h5 h6 h7
    exact h ⟨[], b, rfl⟩

theorem closeOffset_of_block : ∀ (b c : List Char), ¬ closeTag <:+: b →
    closeOffset (b ++ closeTag ++ c) = some b.length
  | [], c, _ => by
    have hp : closeTag.isPrefixOf (closeTag ++ c) = true := by
      rw [List.isPrefixOf_iff_prefix]; exact List.prefix_append _ _
    have hc : closeTag ++ c = '<' :: (['/', 't', 'h', 'i', 'n', 'k', '>'] ++ c) := rfl
    rw [List.nil_append, hc, closeOffset, ← hc, hp]
    rfl
  | x :: b, c, h => by
    have hn := closeTag_not_prefix x b c h
    have hb : ¬ closeTag <:+: b := fun hi => h (List.infix_cons_iff.2 (Or.inr hi))
    have ih := closeOffset_of_block b c hb
    simp only [List.cons_append, List.append_assoc] at hn ih ⊢
    rw [closeOffset, hn, ih]
    rfl

theorem closeOffset_some : ∀ (s : List Char) (k : Nat), closeOffset s = some k →
    ∃ b c, s = b ++ closeTag ++ c
  | [], k, h => by simp [closeOffset] at h
  | x :: s, k, h => by
    rw [closeOffset] at h
    split at h
    · rename_i hp
      rw [List.isPrefixOf_iff_prefix] at hp
      obtain ⟨c, hc⟩ := hp
      exact ⟨[], c, by simpa using hc.symm⟩
    · cases hs : closeOffset s with
      | none => rw [hs] at h; simp at h
      | some j =>
        obtain ⟨b, c, hbc⟩ := closeOffset_some s j hs
        exact ⟨x :: b, c, by simp [hbc]⟩

theorem matchLength_some (s : List Char) (m : Nat) (h : matchLength s = some m) :
    ∃ b c, s = openTag ++ b ++ closeTag ++ c := by
  unfold matchLength at h
  split at h
  · rename_i hp
    rw [List.isPrefixOf_iff_prefix] at hp
    obtain ⟨t, ht⟩ := hp
    have hd : s.drop 7 = t := by
      rw [← ht, openTag_eq]; rfl
    rw [hd] at h
    cases hc : closeOffset t with
    | none => rw [hc] at h; simp at h
    | some k =>
      obtain ⟨b, c, hbc⟩ := closeOffset_some t k hc
      exact ⟨b, c, by rw [← ht, hbc]; simp⟩
  · simp at h

theorem matchLength_of_block (b c : List Char) (h : ¬ closeTag <:+: b) :
    matchLength (openTag ++ b ++ closeTag ++ c) = some (7 + b.length + 8) := by
  unfold matchLength
  have hp : openTag.isPrefixOf (openTag ++ b ++ closeTag ++ c) = true := by
    rw [List.isPrefixOf_iff_prefix]
    exact ⟨b ++ closeTag ++ c, by simp⟩
  have hd : (openTag ++ b ++ closeTag ++ c).drop 7 = b ++ closeTag ++ c := by
    rw [openTag_eq]; simp
  rw [hp, hd, closeOffset_of_block b c h]
  rfl

theorem stripMatches_block : ∀ (a b c : List Char), ¬ openTag <:+: a → ¬ closeTag <:+: b →
    stripMatches 0 (a ++ openTag ++ b ++ closeTag ++ c) = a ++ stripMatches 0 c
  | [], b, c, _, hb => by
    have hm := matchLength_of_block b c hb
    have hlist : [] ++ openTag ++ b ++ closeTag ++ c =
        '<' :: (['t', 'h', 'i', 'n', 'k', '>'] ++ b ++ closeTag ++ c) := by
      rw [openTag_eq]; simp
    have hm' : matchLength ('<' :: (['t', 'h', 'i', 'n', 'k', '>'] ++ b ++ closeTag ++ c)) =
        some (7 + b.length + 8) := by
      rw [← hlist]; simpa using hm
    rw [hlist, stripMatches, hm']
    simp only [List.nil_append]
    have hlen : 7 + b.length + 8 - 1 =
        (['t', 'h', 'i', 'n', 'k', '>'] ++ b ++ closeTag).length := by
      rw [closeTag_eq]; simp; omega
    rw [hlen]
    exact stripMatches_skip _ c
  | x :: a, b, c, ha, hb => by
    have hn := openTag_not_prefix x a (b ++ closeTag ++ c) ha
    have ha' : ¬ openTag <:+: a := fun hi => ha (List.infix_cons_iff.2 (Or.inr hi))
    have ih := stripMatches_block a b c ha' hb
    have hml : matchLength (x :: (a ++ openTag ++ b ++ closeTag ++ c)) = none := by
      unfold matchLength
      have : openTag.isPrefixOf (x :: (a ++ openTag ++ b ++ closeTag ++ c)) = false := by
        simpa [List.append_assoc] using hn
      rw [this]; rfl
    simp only [List.cons_append]
    rw [stripMatches, hml]
    simp only [ih]

theorem stripMatches_no_block : ∀ (s : List Char),
    (∀ a b c : List Char, s ≠ a ++ openTag ++ b ++ closeTag ++ c) → stripMatches 0 s = s
  | [], _ => rfl
  | x :: s, h => by
    have hml : matchLength (x :: s) = none := by
      cases hm : matchLength (x :: s) with
      | none => rfl
      | some m =>
        obtain ⟨b, c, hbc⟩ := matchLength_some _ m hm
        exact absurd (by simpa using hbc) (h [] b c)
    have ih := stripMatches_no_block s (fun a b c hs => h (x :: a) b c (by simp [hs]))
    rw [stripMatches, hml]
    simp only [ih]

/-! ## Lemmas for the ends of a pass -/

theorem append_newline_ne_empty (s : String) : s ++ "\n" ≠ "" := by
  intro h
  have hd := congrArg String.data h
  rw [String.data_append] at hd
  have hl := congrArg List.length hd
  simp at hl

theorem chatCalls_append (a b : List Event) :
    chatCalls (a ++ b) = chatCalls a + chatCalls b := by
  simp [chatCalls, List.countP_append]

theorem extractorCalls_append (a b : List Event) :
    extractorCalls (a ++ b) = extractorCalls a + extractorCalls b := by
  simp [extractorCalls, List.countP_append]

theorem stopContents_append (a b : List Event) :
    stopContents (a ++ b) = stopContents a ++ stopContents b := by
  simp [stopContents, writesOf_append]

theorem notifyChunk_eq (cfg : Config) (w : World) (tr : List Event) (m : String) :
    notifyChunk cfg w tr m =
      tr ++ [Event.write (Write.data (buildChunk cfg (w.now tr) cfg.streamID m false false)),
             Event.flush] := rfl

theorem notifyEnd_eq (cfg : Config) (w : World) (tr : List Event) (m : String) :
    notifyEnd cfg w tr m =
      tr ++ [Event.write (Write.data (buildChunk cfg (w.now tr) cfg.streamID m false true)),
             Event.write Write.done, Event.flush] := rfl

theorem observe_notifyChunk (cfg : Config) (w : World) (tr : List Event) (m : String) :
    chatCalls (notifyChunk cfg w tr m) = chatCalls tr ∧
    extractorCalls (notifyChunk cfg w tr m) = extractorCalls tr ∧
    stopContents (notifyChunk cfg w tr m) = stopContents tr := by
  rw [notifyChunk_eq, chatCalls_append, extractorCalls_append, stopContents_append]
  simp [chatCalls, extractorCalls, stopContents, writesOf, stopContentsOfWrite, buildChunk,
    Event.isChat, Event.isExtractorCall]

theorem observe_notifyEnd (cfg : Config) (w : World) (tr : List Event) (m : String)
    (hm : m ≠ "") :
    chatCalls (notifyEnd cfg w tr m) = chatCalls tr ∧
    extractorCalls (notifyEnd cfg w tr m) = extractorCalls tr ∧
    stopContents (notifyEnd cfg w tr m) = stopContents tr ++ [some m] := by
  rw [notifyEnd_eq, chatCalls_append, extractorCalls_append, stopContents_append]
  simp [chatCalls, extractorCalls, stopContents, writesOf, stopContentsOfWrite, buildChunk,
    Event.isChat, Event.isExtractorCall, hm]

theorem observe_afterSearch (cfg : Config) (w : World) (query : String) (tr : List Event) :
    chatCalls (afterSearch cfg w query tr) = chatCalls tr ∧
    extractorCalls (afterSearch cfg w query tr) = extractorCalls tr ∧
    stopContents (afterSearch cfg w query tr) = stopContents tr := by
  unfold afterSearch searchAnnounce
  simp only [(observe_notifyChunk cfg w _ _).1, (observe_notifyChunk cfg w _ _).2.1,
    (observe_notifyChunk cfg w _ _).2.2, chatCalls_append, extractorCalls_append,
    stopContents_append]
  simp [chatCalls, extractorCalls, stopContents, writesOf, Event.isChat, Event.isExtractorCall]

theorem observe_afterExpert (cfg : Config) (w : World) (userQuestion : String)
    (st : LoopState) (seen : Registry) (searchErr : Option String) (tr : List Event) :
    chatCalls (afterExpert cfg w userQuestion st seen searchErr tr) = chatCalls tr + 1 ∧
    extractorCalls (afterExpert cfg w userQuestion st seen searchErr tr) = extractorCalls tr ∧
    stopContents (afterExpert cfg w userQuestion st seen searchErr tr) = stopContents tr := by
  unfold afterExpert
  simp only [(observe_notifyChunk cfg w _ _).1, (observe_notifyChunk cfg w _ _).2.1,
    (observe_notifyChunk cfg w _ _).2.2, chatCalls_append, extractorCalls_append,
    stopContents_append]
  simp [chatCalls, extractorCalls, stopContents, writesOf, Event.isChat, Event.isExtractorCall]

theorem observe_afterExtractor (cfg : Config) (w : World) (reasoning : String)
    (tr : List Event) :
    chatCalls (afterExtractor cfg w reasoning tr) = chatCalls tr + 1 ∧
    extractorCalls (afterExtractor cfg w reasoning tr) = extractorCalls tr + 1 ∧
    stopContents (afterExtractor cfg w reasoning tr) = stopContents tr := by
  unfold afterExtractor
  simp only [(observe_notifyChunk cfg w _ _).1, (observe_notifyChunk cfg w _ _).2.1,
    (observe_notifyChunk cfg w _ _).2.2, chatCalls_append, extractorCalls_append,
    stopContents_append]
  simp [chatCalls, extractorCalls, stopContents, writesOf, Event.isChat, Event.isExtractorCall]

theorem searchedQueries_append (a b : List Event) :
    searchedQueries (a ++ b) = searchedQueries a ++ searchedQueries b := by
  induction a with
  | nil => rfl
  | cons e es ih =>
    cases e with
    | youtrackRequest p ps =>
      simp only [List.cons_append, searchedQueries]
      cases ps.lookup "query" <;> simp [ih]
    | write x => simp [searchedQueries, ih]
    | flush => simp [searchedQueries, ih]
    | llmChat ms a b f => simp [searchedQueries, ih]

theorem searchedQueries_notifyChunk (cfg : Config) (w : World) (tr : List Event) (m : String) :
    searchedQueries (notifyChunk cfg w tr m) = searchedQueries tr := by
  rw [notifyChunk_eq, searchedQueries_append]
  simp [searchedQueries]

theorem searchedQueries_afterSearch (cfg : Config) (w : World) (query : String)
    (tr : List Event) :
    searchedQueries (afterSearch cfg w query tr) = searchedQueries tr ++ [query] := by
  unfold afterSearch searchAnnounce
  rw [searchedQueries_notifyChunk, searchedQueries_append, searchedQueries_notifyChunk]
  simp [searchedQueries, searchParams, List.lookup]

theorem searchedQueries_afterExpert (cfg : Config) (w : World) (userQuestion : String)
    (st : LoopState) (seen : Registry) (searchErr : Option String) (tr : List Event) :
    searchedQueries (afterExpert cfg w userQuestion st seen searchErr tr) =
      searchedQueries tr := by
  unfold afterExpert
  rw [searchedQueries_append, searchedQueries_notifyChunk]
  simp [searchedQueries]

theorem searchedQueries_afterExtractor (cfg : Config) (w : World) (reasoning : String)
    (tr : List Event) :
    searchedQueries (afterExtractor cfg w reasoning tr) = searchedQueries tr := by
  unfold afterExtractor
  rw [searchedQueries_append, searchedQueries_notifyChunk]
  simp [searchedQueries]

/-- What is known of a pass that ends by going to the next iteration. -/
theorem loopBody_again (cfg : Config) (w : World) (userQuestion : String) (st : LoopState)
    (query : String) (rest : List String) (tr : List Event) (st1 : LoopState)
    (out : List Event)
    (h : loopBody cfg w userQuestion st query rest tr = (Control.again st1, out)) :
    st1.step = st.step ∧
    st1.attemptQueries = st.attemptQueries ++ [query] ∧
    searchedQueries out = searchedQueries tr ++ [query] ∧
    (st1.searchQueue = rest ∨
      ∃ action, passAction cfg w userQuestion st query tr = some action ∧
        action.action = "yt_search" ∧ action.query ≠ "" ∧
        st1.searchQueue = rest ++ [action.query]) := by
  unfold loopBody at h
  unfold passAction
  cases hm : mergeIssues cfg (truncateIssues cfg (searchResult cfg w query tr).data)
      st.seenIssues with
  | none => rw [hm] at h; simp at h
  | some seen =>
    rw [hm] at h
    simp only at h ⊢
    unfold reason at h
    cases he : expertResult cfg w userQuestion st seen (searchResult cfg w query tr).err
        (afterSearch cfg w query tr) with
    | panicked => rw [he] at h; simp at h
    | error e => rw [he] at h; simp at h
    | ok raw =>
      rw [he] at h
      simp only at h ⊢
      by_cases hs : st.step = cfg.maxSteps
      · simp [hs] at h
      · simp only [hs, if_false] at h ⊢
        cases hx : extractorResult cfg w (trimSpace (removeThinkTags raw))
            (afterExpert cfg w userQuestion st seen (searchResult cfg w query tr).err
              (afterSearch cfg w query tr)) with
        | panicked => rw [hx] at h; simp at h
        | error e => rw [hx] at h; simp at h
        | ok decision =>
          rw [hx] at h
          simp only at h ⊢
          have hbase : searchedQueries
              (afterExtractor cfg w (trimSpace (removeThinkTags raw))
                (afterExpert cfg w userQuestion st seen (searchResult cfg w query tr).err
                  (afterSearch cfg w query tr))) = searchedQueries tr ++ [query] := by
            rw [searchedQueries_afterExtractor, searchedQueries_afterExpert,
              searchedQueries_afterSearch]
          unfold dispatch at h
          cases hp : w.jsonUnmarshal decision with
          | none =>
            rw [hp] at h
            simp only [Prod.mk.injEq, Control.again.injEq] at h
            obtain ⟨h1, h2⟩ := h
            subst h1 h2
            exact ⟨rfl, rfl, hbase, Or.inl rfl⟩
          | some action =>
            rw [hp] at h
            simp only at h
            by_cases hf : action.action = "final_answer"
            · simp [hf] at h
            · simp only [hf, if_false] at h
              by_cases hy : action.action = "yt_search" ∧ action.query ≠ ""
              · rw [if_pos hy] at h
                simp only [Prod.mk.injEq, Control.again.injEq] at h
                obtain ⟨h1, h2⟩ := h
                subst h1 h2
                refine ⟨rfl, rfl, ?_, Or.inr ⟨action, rfl, hy.1, hy.2, rfl⟩⟩
                have hy2 := hy.2
                simp only [ne_eq] at hy2
                split
                · rw [searchedQueries_notifyChunk, hbase]
                · exact hbase
              · simp [hy] at h

theorem headAfter_succ (cfg : Config) (w : World) (userQuestion : String) (k : Nat)
    (st1 : LoopState) (tr1 : List Event)
    (h : headAfter cfg w userQuestion (k + 1) = some (st1, tr1)) :
    ∃ st tr query rest st0,
      headAfter cfg w userQuestion k = some (st, tr) ∧ st.step ≤ cfg.maxSteps ∧
      st.searchQueue = query :: rest ∧
      loopBody cfg w userQuestion st query rest tr = (Control.again st0, tr1) ∧
      st1 = { st0 with step := st0.step + 1 } := by
  rw [headAfter] at h
  cases hk : headAfter cfg w userQuestion k with
  | none => rw [hk] at h; simp at h
  | some p =>
    obtain ⟨st, tr⟩ := p
    rw [hk] at h
    simp only at h
    by_cases hle : st.step ≤ cfg.maxSteps
    · simp only [hle, if_true] at h
      cases hq : st.searchQueue with
      | nil => rw [hq] at h; simp at h
      | cons query rest =>
        rw [hq] at h
        simp only at h
        cases hb : loopBody cfg w userQuestion st query rest tr with
        | mk c out =>
          rw [hb] at h
          cases c with
          | again st0 =>
            simp only [Option.some.injEq, Prod.mk.injEq] at h
            exact ⟨st, tr, query, rest, st0, rfl, hle, hq, by rw [← h.2, hb], h.1.symm⟩
          | leave => simp at h
          | finished => simp at h
          | failed => simp at h
    · simp [hle] at h

/-- The states of `headAfter` are the states with which the run passes the head
of the loop. -/
theorem headAfter_on_run (cfg : Config) (w : World) (userQuestion : String) :
    ∀ (k : Nat) (st : LoopState) (tr : List Event),
      headAfter cfg w userQuestion k = some (st, tr) →
      st.step = k + 1 ∧ k ≤ cfg.maxSteps ∧
      agentAnswerStream cfg w userQuestion =
        forLoop cfg w userQuestion (cfg.maxSteps + 1 - k) st tr
  | 0, st, tr, h => by
    simp only [headAfter, Option.some.injEq, Prod.mk.injEq] at h
    obtain ⟨h1, h2⟩ := h
    subst h1 h2
    exact ⟨rfl, Nat.zero_le _, rfl⟩
  | k + 1, st1, tr1, h => by
    obtain ⟨st, tr, query, rest, st0, hk, hle, hq, hb, hst⟩ :=
      headAfter_succ cfg w userQuestion k st1 tr1 h
    obtain ⟨hstep, _, hrun⟩ := headAfter_on_run cfg w userQuestion k st tr hk
    have h0 := (loopBody_again cfg w userQuestion st query rest tr st0 tr1 hb).1
    have hfuel : cfg.maxSteps + 1 - k = (cfg.maxSteps + 1 - (k + 1)) + 1 := by omega
    refine ⟨by rw [hst]; simp only; omega, by omega, ?_⟩
    rw [hrun, hfuel, forLoop_succ cfg w userQuestion _ st tr query rest hle hq, hb, hst]

theorem foldl_quoted (qs : List String) :
    ∀ init : String,
      qs.foldl (fun acc atemptQuery => acc ++ ("`" ++ atemptQuery ++ "`\n")) init =
        init ++ quotedLines qs := by
  induction qs with
  | nil => intro init; simp [quotedLines]
  | cons q qs ih =>
    intro init
    rw [List.foldl_cons, ih, quotedLines, String.append_assoc]

theorem expertUserPrompt_sections (userQuestion issuesJSON : String) (attempts : List String)
    (searchErr : Option String) (lastStep : Bool) :
    expertUserPrompt userQuestion issuesJSON attempts searchErr lastStep =
      "Вопрос пользователя: \"" ++ userQuestion ++ "\"\n\nНайденные задачи:\n" ++ issuesJSON ++
        attemptsSection attempts ++ errorSection searchErr ++
        (if lastStep then lastAttemptInstruction else "") := by
  unfold expertUserPrompt
  simp only
  have h1 : (if attempts.length > 0 then
        attempts.foldl (fun acc atemptQuery => acc ++ ("`" ++ atemptQuery ++ "`\n"))
          ("Вопрос пользователя: \"" ++ userQuestion ++ "\"\n\nНайденные задачи:\n" ++
            issuesJSON ++ "Уже опробованные Youtrack-запросы: \n")
      else "Вопрос пользователя: \"" ++ userQuestion ++ "\"\n\nНайденные задачи:\n" ++
        issuesJSON) =
      "Вопрос пользователя: \"" ++ userQuestion ++ "\"\n\nНайденные задачи:\n" ++ issuesJSON ++
        attemptsSection attempts := by
    cases attempts with
    | nil => simp [attemptsSection]
    | cons q qs =>
      simp only [List.length_cons, gt_iff_lt, Nat.zero_lt_succ, if_true]
      rw [foldl_quoted, attemptsSection, String.append_assoc]
  rw [h1]
  cases searchErr with
  | none => cases lastStep <;> simp [errorSection, lastAttemptInstruction]
  | some e => cases lastStep <;> simp [errorSection, lastAttemptInstruction]

theorem headAfter_invariant (cfg : Config) (w : World) (userQuestion : String) :
    ∀ (k : Nat) (st : LoopState) (tr : List Event),
      headAfter cfg w userQuestion k = some (st, tr) →
      st.attemptQueries = searchedQueries tr ∧ (searchedQueries tr).length = k ∧
      st.searchQueue.length ≤ 1
  | 0, st, tr, h => by
    simp only [headAfter, Option.some.injEq, Prod.mk.injEq] at h
    obtain ⟨h1, h2⟩ := h
    subst h1 h2
    simp [initialState, preamble, searchedQueries_notifyChunk, searchedQueries]
  | k + 1, st1, tr1, h => by
    obtain ⟨st, tr, query, rest, st0, hk, _, hq, hb, hst⟩ :=
      headAfter_succ cfg w userQuestion k st1 tr1 h
    obtain ⟨ha, hl, hlen⟩ := headAfter_invariant cfg w userQuestion k st tr hk
    obtain ⟨_, hatt, hsq, hqueue⟩ := loopBody_again cfg w userQuestion st query rest tr st0 tr1 hb
    have hrest : rest = [] := by
      rw [hq] at hlen
      simp only [List.length_cons] at hlen
      exact List.length_eq_zero.1 (by omega)
    subst hst
    refine ⟨?_, ?_, ?_⟩
    · simp only [hatt, hsq, ha]
    · rw [hsq, List.length_append, hl]; rfl
    · simp only
      rcases hqueue with hqq | ⟨action, _, _, _, hqq⟩
      · rw [hqq, hrest]; simp
      · rw [hqq, hrest]; simp

/-! ## The stream contract -/

theorem sampleSearch_wellFormed (expert extractor : ChatExchange) :
    WellFormedSearch (sampleWorld sampleSearch expert extractor) := by
  intro tr path params it hit
  simp only [sampleWorld] at hit
  split at hit
  · rename_i q _
    unfold sampleSearch at hit
    split at hit
    · simp only [List.mem_cons, List.mem_singleton, List.not_mem_nil, or_false] at hit
      rcases hit with h | h <;> subst h <;> rfl
    · simp only [List.mem_singleton] at hit
      subst hit; rfl
  · simp at hit

theorem chatReply_returns (search : String → SearchResult) (a b : String) :
    ChatReturns (sampleWorld search (chatReply a) (chatReply b)) := by
  intro tr messages maxTokens temperature format
  cases format <;> simp [World.llmChat, sampleWorld, chatReply, llmChatResult, JObject.get,
    List.lookup, JVal.asArray, JVal.asObject, JVal.asString]

/-- C1, the code at the failing input. The issue records are well-formed and
the reasoning service answers the first call with a JSON object that has an
`error` member and no `choices`. The unchecked assertion of `llmChat` fails
inside `agentAnswerStream`: the run stops after the chunk `Думаю...`, with no
chunk carrying `finish_reason` and without the sentinel. -/
theorem stream_cut_short_by_reply_without_choices :
    WellFormedSearch chatRefusedWorld ∧
    llmChatResult refusedReply = ChatResult.panicked ∧
    (agentAnswerStream sampleConfig chatRefusedWorld "q").exit = Exit.panicked ∧
    stopContents (agentAnswerStream sampleConfig chatRefusedWorld "q").trace = [] ∧
    writesOf (agentAnswerStream sampleConfig chatRefusedWorld "q").trace =
      [Write.data
        { id := "stream-1", object := "chat.completion.chunk", created := 1700000000
          model := "model"
          choices := [{ index := 0
                        delta := { role := some "assistant", content := none }
                        finishReason := none }] },
       Write.data
        { id := "stream-1", object := "chat.completion.chunk", created := 1700000000
          model := "model"
          choices := [{ index := 0
                        delta := { role := none, content := some "<think>" }
                        finishReason := none }] },
       Write.data
        { id := "stream-1", object := "chat.completion.chunk", created := 1700000000
          model := "model"
          choices := [{ index := 0
                        delta := { role := none, content := some "Ищу в Youtrack: `q`\n" }
                        finishReason := none }] },
       Write.data
        { id := "stream-1", object := "chat.completion.chunk", created := 1700000000
          model := "model"
          choices := [{ index := 0
                        delta := { role := none, content := some "Найдено 2 результатов.\n" }
                        finishReason := none }] },
       Write.data
        { id := "stream-1", object := "chat.completion.chunk", created := 1700000000
          model := "model"
          choices := [{ index := 0
                        delta := { role := none, content := some "Думаю..." }
                        finishReason := none }] }] :=
  ⟨sampleSearch_wellFormed refusedReply refusedReply, rfl, rfl, rfl, rfl⟩

/-- The stream contract on the runs in which every call of `llmChat` returns.
For every question, step limit, search limit and every behaviour of the
surroundings that delivers well-formed issue records and lets every call of
`llmChat` return, the function returns, and its writes are: one chunk carrying
the role marker, first; then chunks carrying neither the role marker nor
`finish_reason`; then one chunk carrying `finish_reason` `"stop"` and no role
marker; then the sentinel `data: [DONE]`, last. -/
theorem stream_well_formed_when_calls_return (cfg : Config) (w : World)
    (userQuestion : String) (hw : WellFormedSearch w) (hc : ChatReturns w) :
    (agentAnswerStream cfg w userQuestion).exit = Exit.returned ∧
    ∃ (first : Chunk) (mid : List Write) (last : Chunk),
      writesOf (agentAnswerStream cfg w userQuestion).trace =
        Write.data first :: (mid ++ [Write.data last, Write.done]) ∧
      first.carriesRole = true ∧ first.carriesStop = false ∧
      (∀ x ∈ mid, Write.isPlain x = true) ∧
      last.carriesRole = false ∧ last.carriesStop = true := by
  have h := forLoop_closes cfg w hw hc userQuestion (cfg.maxSteps + 1)
    (initialState userQuestion) (preamble cfg w) (by simp [initialState])
  refine ⟨h.1, ?_⟩
  obtain ⟨mid, last, htr, hplain, hrole, hstop⟩ := h.2
  refine ⟨roleChunk cfg (w.now []),
    Write.data (buildChunk cfg
      (w.now [Event.write (Write.data (roleChunk cfg (w.now []))), Event.flush])
      cfg.streamID "<think>" false false) :: writesOf mid, last, ?_, ?_, ?_, ?_, hrole, hstop⟩
  · unfold agentAnswerStream
    rw [htr]
    simp [writesOf_append, writesOf, preamble, notifyChunk]
  · simp [Chunk.carriesRole, roleChunk]
  · simp [Chunk.carriesStop, roleChunk]
  · intro x hx
    rcases List.mem_cons.1 hx with hx | hx
    · subst hx
      simp [Write.isPlain, Chunk.carriesRole, Chunk.carriesStop, buildChunk]
    · exact hplain x hx

/-- Instance of the stream contract: the sample world, where both calls return
at every step and the extractor asks for a second search. -/
theorem stream_well_formed_when_calls_return_instance :
    (WellFormedSearch searchingWorld ∧ ChatReturns searchingWorld) ∧
    ((agentAnswerStream sampleConfig searchingWorld "q").exit = Exit.returned ∧
      ∃ (first : Chunk) (mid : List Write) (last : Chunk),
        writesOf (agentAnswerStream sampleConfig searchingWorld "q").trace =
          Write.data first :: (mid ++ [Write.data last, Write.done]) ∧
        first.carriesRole = true ∧ first.carriesStop = false ∧
        (∀ x ∈ mid, Write.isPlain x = true) ∧
        last.carriesRole = false ∧ last.carriesStop = true) :=
  ⟨⟨sampleSearch_wellFormed _ _, chatReply_returns _ _ _⟩,
    stream_well_formed_when_calls_return sampleConfig searchingWorld "q"
      (sampleSearch_wellFormed _ _) (chatReply_returns _ _ _)⟩

/-! ## The registry -/

/-- C2. For every sequence of merges of well-formed raw issue lists into the
empty registry, the merges succeed, and in the snapshot of the resulting
registry, taken in any order, the records with a given ID are: exactly the one
record built from the last merged raw record with that ID, when there is one,
and none otherwise. -/
theorem snapshot_one_record_per_id_latest (cfg : Config) (merges : List (List JObject))
    (hwf : ∀ l ∈ merges, ∀ it ∈ l, wellFormedIssue it = true) :
    ∃ reg, mergeAll cfg merges [] = some reg ∧
      ∀ xs : List IssueRecord, List.Perm xs (snapshot reg) → ∀ id : String,
        match lastWithId id merges.flatten with
        | some it =>
          ∃ r, buildRecord cfg it = some r ∧ xs.filter (fun x => decide (x.id = id)) = [r]
        | none => xs.filter (fun x => decide (x.id = id)) = [] := by
  obtain ⟨reg, hreg⟩ := mergeIssues_of_wellFormed cfg merges.flatten []
    (fun it hit => by
      obtain ⟨l, hl, hil⟩ := List.mem_flatten.1 hit
      exact hwf l hl it hil)
  have hempty : RegistryOK ([] : Registry) := ⟨List.nodup_nil, fun p hp => by simp at hp⟩
  obtain ⟨hok, hlook⟩ := mergeIssues_lookup cfg merges.flatten [] reg hempty hreg
  refine ⟨reg, by rw [mergeAll_eq_join, hreg], ?_⟩
  intro xs hperm id
  have hfil : List.Perm (xs.filter (fun x => decide (x.id = id))) (reg.lookup id).toList := by
    have := hperm.filter (fun x => decide (x.id = id))
    rwa [snapshot_filter hok id] at this
  have hl := hlook id
  cases hlast : lastWithId id merges.flatten with
  | none =>
    rw [hlast] at hl
    simp only [List.lookup] at hl
    rw [hl] at hfil
    simpa using hfil
  | some it =>
    rw [hlast] at hl
    simp only at hl ⊢
    have hit : it ∈ merges.flatten := by
      have hmem : ∀ (l : List JObject) (x : JObject), lastWithId id l = some x → x ∈ l := by
        intro l
        induction l with
        | nil => intro x hx; simp [lastWithId] at hx
        | cons a rest ih =>
          intro x hx
          simp only [lastWithId] at hx
          cases hr : lastWithId id rest with
          | some y =>
            rw [hr] at hx
            simp only [Option.some.injEq] at hx
            subst hx
            exact List.mem_cons_of_mem _ (ih y hr)
          | none =>
            rw [hr] at hx
            simp only at hx
            split at hx
            · simp only [Option.some.injEq] at hx
              subst hx
              exact List.mem_cons_self _ _
            · simp at hx
      exact hmem _ _ hlast
    obtain ⟨l, hl1, hil⟩ := List.mem_flatten.1 hit
    obtain ⟨r, hr, _⟩ := buildRecord_of_wellFormed cfg (hwf l hl1 it hil)
    refine ⟨r, hr, ?_⟩
    rw [hl, hr] at hfil
    simpa using hfil

/-- Instance of C2: `A-1` is merged twice, first open, then fixed. -/
theorem snapshot_one_record_per_id_latest_witness :
    (∀ l ∈ [[rawIssue "A-1" "Open", rawIssue "A-2" "Open"], [rawIssue "A-1" "Fixed"]],
      ∀ it ∈ l, wellFormedIssue it = true) ∧
    ∃ reg, mergeAll sampleConfig
        [[rawIssue "A-1" "Open", rawIssue "A-2" "Open"], [rawIssue "A-1" "Fixed"]] [] = some reg ∧
      ∀ xs : List IssueRecord, List.Perm xs (snapshot reg) → ∀ id : String,
        match lastWithId id
          [[rawIssue "A-1" "Open", rawIssue "A-2" "Open"], [rawIssue "A-1" "Fixed"]].flatten with
        | some it =>
          ∃ r, buildRecord sampleConfig it = some r ∧
            xs.filter (fun x => decide (x.id = id)) = [r]
        | none => xs.filter (fun x => decide (x.id = id)) = [] :=
  have hwf : ∀ l ∈ [[rawIssue "A-1" "Open", rawIssue "A-2" "Open"], [rawIssue "A-1" "Fixed"]],
      ∀ it ∈ l, wellFormedIssue it = true := by
    intro l hl it hit
    simp only [List.mem_cons, List.mem_singleton, List.not_mem_nil, or_false] at hl
    rcases hl with h | h <;> subst h <;>
      simp only [List.mem_cons, List.mem_singleton, List.not_mem_nil, or_false] at hit
    · rcases hit with h | h <;> subst h <;> rfl
    · subst hit; rfl
  ⟨hwf, snapshot_one_record_per_id_latest sampleConfig _ hwf⟩

/-! ## The step budget -/

/-- C3. Every interaction runs to its end within the iterations the model
allows, and in it the number of search calls (one per dequeued query) and the
number of expert calls are at most `maxSteps`; and whenever the
head of the loop is passed with an empty queue, whatever the step, the registry
and the attempt log, nothing is dequeued and no call is made: the closing
`</think>` chunk, the terminal chunk with the fixed text, the sentinel and a
flush are all that follows. -/
theorem steps_bounded_and_empty_queue_ends (cfg : Config) (w : World)
    (userQuestion : String) :
    (agentAnswerStream cfg w userQuestion).exit ≠ Exit.outOfFuel ∧
    searchCalls (agentAnswerStream cfg w userQuestion).trace ≤ cfg.maxSteps ∧
    expertCalls (agentAnswerStream cfg w userQuestion).trace ≤ cfg.maxSteps ∧
    ∀ (fuel step : Nat) (seen : Registry) (attempts : List String) (tr : List Event),
      forLoop cfg w userQuestion (fuel + 1)
          { step := step, searchQueue := [], seenIssues := seen, attemptQueries := attempts } tr =
        { exit := Exit.returned
          trace := tr ++
            [Event.write (Write.data (buildChunk cfg (w.now tr) cfg.streamID "</think>" false false)),
             Event.flush,
             Event.write (Write.data (buildChunk cfg (w.now (notifyChunk cfg w tr "</think>"))
               cfg.streamID "Не получилось найти ответ\n" false true)),
             Event.write Write.done,
             Event.flush] } := by
  have h := forLoop_calls cfg w userQuestion (cfg.maxSteps + 1) (initialState userQuestion)
    (preamble cfg w)
  have hp : searchCalls (preamble cfg w) = 0 ∧ expertCalls (preamble cfg w) = 0 := by
    simp [preamble, notifyChunk, searchCalls, expertCalls, Event.isSearch, Event.isExpertCall]
  refine ⟨?_, ?_, ?_, ?_⟩
  · exact forLoop_fuel_enough cfg w userQuestion (cfg.maxSteps + 1) (initialState userQuestion)
      (preamble cfg w) (by simp [initialState])
  · have := h.1
    simp only [hp.1, initialState] at this
    unfold agentAnswerStream
    simpa [initialState] using this
  · have := h.2
    simp only [hp.2, initialState] at this
    unfold agentAnswerStream
    simpa [initialState] using this
  · intro fuel step seen attempts tr
    unfold forLoop
    split <;> simp [fallback, notifyEnd, notifyChunk, fallbackText]

/-! ## The last permitted step -/

/-- C4, refuted as stated. With `maxSteps = 1` the first step is the step with
`step == maxSteps`; the expert call is made there and returns an error, and the
terminal chunk carries the fixed fallback text. -/
theorem last_step_expert_error_gives_fallback :
    oneStepConfig.maxSteps = 1 ∧
    expertCalls (agentAnswerStream oneStepConfig expertDownWorld "q").trace = 1 ∧
    stopContents (agentAnswerStream oneStepConfig expertDownWorld "q").trace =
      [some "Не получилось найти ответ\n"] := by
  refine ⟨rfl, ?_, ?_⟩
  · decide
  · decide

/-- C4, amended. When the head of the loop is passed with `step == maxSteps`,
the interaction ends in that pass and the loop is not entered again: with an
empty queue, by the fixed fallback text; with a non-empty queue whose search
results merge, by the reasoner's text (thinking blocks removed, trimmed, a
newline added) as the terminal chunk when the expert call succeeds, and by the
fixed fallback text when the expert call returns an error. -/
theorem last_step_ends_interaction (cfg : Config) (w : World) (userQuestion : String)
    (fuel : Nat) (st : LoopState) (tr : List Event) (hstep : st.step = cfg.maxSteps) :
    (st.searchQueue = [] →
      forLoop cfg w userQuestion (fuel + 1) st tr =
        { exit := Exit.returned
          trace := notifyEnd cfg w (notifyChunk cfg w tr "</think>")
            "Не получилось найти ответ\n" }) ∧
    ∀ (query : String) (rest : List String) (seen : Registry),
      st.searchQueue = query :: rest →
      mergeIssues cfg (truncateIssues cfg (searchResult cfg w query tr).data) st.seenIssues =
        some seen →
      (∀ raw : String,
        expertResult cfg w userQuestion st seen (searchResult cfg w query tr).err
          (afterSearch cfg w query tr) = ChatResult.ok raw →
        forLoop cfg w userQuestion (fuel + 1) st tr =
          { exit := Exit.returned
            trace := notifyEnd cfg w
              (notifyChunk cfg w
                (afterExpert cfg w userQuestion st seen (searchResult cfg w query tr).err
                  (afterSearch cfg w query tr)) "</think>")
              (trimSpace (removeThinkTags raw) ++ "\n") }) ∧
      (∀ e : String,
        expertResult cfg w userQuestion st seen (searchResult cfg w query tr).err
          (afterSearch cfg w query tr) = ChatResult.error e →
        forLoop cfg w userQuestion (fuel + 1) st tr =
          { exit := Exit.returned
            trace := notifyEnd cfg w
              (notifyChunk cfg w
                (afterExpert cfg w userQuestion st seen (searchResult cfg w query tr).err
                  (afterSearch cfg w query tr)) "</think>")
              "Не получилось найти ответ\n" }) := by
  refine ⟨fun hq => ?_, ?_⟩
  · rw [forLoop_empty cfg w userQuestion fuel st tr hq]
    rfl
  · intro query rest seen hq hm
    have hle : st.step ≤ cfg.maxSteps := by omega
    refine ⟨fun raw he => ?_, fun e he => ?_⟩
    · rw [forLoop_succ cfg w userQuestion fuel st tr query rest hle hq]
      simp only [loopBody, hm, reason, he, hstep, if_true]
    · rw [forLoop_succ cfg w userQuestion fuel st tr query rest hle hq]
      simp only [loopBody, hm, reason, he]
      rfl

/-- Instance of the amended C4: one permitted step, the search results merge
and the expert answers; the terminal chunk carries the cleaned answer. -/
theorem last_step_ends_interaction_witness :
    (initialState "q").step = oneStepConfig.maxSteps ∧
    (initialState "q").searchQueue = ["q"] ∧
    mergeIssues oneStepConfig
      (truncateIssues oneStepConfig (searchResult oneStepConfig answeringWorld "q" []).data)
      (initialState "q").seenIssues = some [("A-1", sampleRecord "A-1" "Open")] ∧
    expertResult oneStepConfig answeringWorld "q" (initialState "q")
      [("A-1", sampleRecord "A-1" "Open")]
      (searchResult oneStepConfig answeringWorld "q" []).err
      (afterSearch oneStepConfig answeringWorld "q" []) = ChatResult.ok " <think>hm</think>r\n" ∧
    forLoop oneStepConfig answeringWorld "q" (0 + 1) (initialState "q") [] =
      { exit := Exit.returned
        trace := notifyEnd oneStepConfig answeringWorld
          (notifyChunk oneStepConfig answeringWorld
            (afterExpert oneStepConfig answeringWorld "q" (initialState "q")
              [("A-1", sampleRecord "A-1" "Open")]
              (searchResult oneStepConfig answeringWorld "q" []).err
              (afterSearch oneStepConfig answeringWorld "q" [])) "</think>")
          (trimSpace (removeThinkTags " <think>hm</think>r\n") ++ "\n") } :=
  ⟨rfl, rfl, rfl, rfl,
    ((last_step_ends_interaction oneStepConfig answeringWorld "q" 0 (initialState "q") []
      rfl).2 "q" [] [("A-1", sampleRecord "A-1" "Open")] rfl rfl).1 " <think>hm</think>r\n" rfl⟩

/-! ## A failing expert call -/

/-- C5. At any step within the budget, with a non-empty queue whose search
results merge: when the expert call returns an error, the interaction ends
there. After the expert call only the closing `</think>` chunk, the terminal
chunk with the fixed fallback text, the sentinel and a flush follow; the run
contains no search call and no `llmChat` call beyond those of the trace up to
the failed call. -/
theorem expert_error_aborts (cfg : Config) (w : World) (userQuestion : String) (fuel : Nat)
    (st : LoopState) (tr : List Event) (query : String) (rest : List String)
    (seen : Registry) (e : String)
    (hle : st.step ≤ cfg.maxSteps) (hq : st.searchQueue = query :: rest)
    (hm : mergeIssues cfg (truncateIssues cfg (searchResult cfg w query tr).data)
      st.seenIssues = some seen)
    (he : expertResult cfg w userQuestion st seen (searchResult cfg w query tr).err
      (afterSearch cfg w query tr) = ChatResult.error e) :
    forLoop cfg w userQuestion (fuel + 1) st tr =
      { exit := Exit.returned
        trace := notifyEnd cfg w
          (notifyChunk cfg w
            (afterExpert cfg w userQuestion st seen (searchResult cfg w query tr).err
              (afterSearch cfg w query tr)) "</think>")
          "Не получилось найти ответ\n" } ∧
    searchCalls (forLoop cfg w userQuestion (fuel + 1) st tr).trace = searchCalls tr + 1 ∧
    chatCalls (forLoop cfg w userQuestion (fuel + 1) st tr).trace = chatCalls tr + 1 ∧
    stopContents (forLoop cfg w userQuestion (fuel + 1) st tr).trace =
      stopContents tr ++ [some "Не получилось найти ответ\n"] := by
  have heq : forLoop cfg w userQuestion (fuel + 1) st tr =
      { exit := Exit.returned
        trace := notifyEnd cfg w
          (notifyChunk cfg w
            (afterExpert cfg w userQuestion st seen (searchResult cfg w query tr).err
              (afterSearch cfg w query tr)) "</think>")
          "Не получилось найти ответ\n" } := by
    rw [forLoop_succ cfg w userQuestion fuel st tr query rest hle hq]
    simp only [loopBody, hm, reason, he]
    rfl
  refine ⟨heq, ?_, ?_, ?_⟩
  · rw [heq]
    simp only [(calls_notifyEnd cfg w _ _).1, (calls_notifyChunk cfg w _ _).1,
      (calls_afterExpert cfg w _ _ _ _ _).1, (calls_afterSearch cfg w _ _).1]
  · rw [heq]
    simp [chatCalls, notifyEnd, notifyChunk, afterExpert, afterSearch, searchAnnounce,
      List.countP_append, List.countP_cons, Event.isChat]
  · rw [heq]
    simp [stopContents, writesOf_append, writesOf, notifyEnd, notifyChunk, afterExpert,
      afterSearch, searchAnnounce, stopContentsOfWrite, buildChunk]

/-- Instance of C5: the expert call of the first step times out. -/
theorem expert_error_aborts_witness :
    ((initialState "q").step ≤ sampleConfig.maxSteps ∧
     (initialState "q").searchQueue = ["q"] ∧
     mergeIssues sampleConfig
       (truncateIssues sampleConfig (searchResult sampleConfig expertDownWorld "q" []).data)
       (initialState "q").seenIssues = some [("A-1", sampleRecord "A-1" "Open")] ∧
     expertResult sampleConfig expertDownWorld "q" (initialState "q")
       [("A-1", sampleRecord "A-1" "Open")]
       (searchResult sampleConfig expertDownWorld "q" []).err
       (afterSearch sampleConfig expertDownWorld "q" []) = ChatResult.error "timeout") ∧
    (forLoop sampleConfig expertDownWorld "q" (3 + 1) (initialState "q") [] =
      { exit := Exit.returned
        trace := notifyEnd sampleConfig expertDownWorld
          (notifyChunk sampleConfig expertDownWorld
            (afterExpert sampleConfig expertDownWorld "q" (initialState "q")
              [("A-1", sampleRecord "A-1" "Open")]
              (searchResult sampleConfig expertDownWorld "q" []).err
              (afterSearch sampleConfig expertDownWorld "q" [])) "</think>")
          "Не получилось найти ответ\n" } ∧
    searchCalls (forLoop sampleConfig expertDownWorld "q" (3 + 1) (initialState "q") []).trace =
      searchCalls [] + 1 ∧
    chatCalls (forLoop sampleConfig expertDownWorld "q" (3 + 1) (initialState "q") []).trace =
      chatCalls [] + 1 ∧
    stopContents (forLoop sampleConfig expertDownWorld "q" (3 + 1) (initialState "q") []).trace =
      stopContents [] ++ [some "Не получилось найти ответ\n"]) :=
  ⟨⟨by decide, rfl, rfl, rfl⟩,
    expert_error_aborts sampleConfig expertDownWorld "q" 3 (initialState "q") [] "q" []
      [("A-1", sampleRecord "A-1" "Open")] "timeout" (by decide) rfl rfl rfl⟩

/-! ## The extractor's decision -/

/-- C6. At a step below the budget, with a non-empty queue whose search results
merge and with both calls answered: when the decision parses to action
`yt_search` with a non-empty query, the pass ends by going to the next
iteration with the step counter raised by one, the query appended at the back of
what the dequeue left of the queue, the merged registry and the extended
attempt log; the answer text followed by a newline is written as one
non-terminal chunk exactly when it is non-empty. From the initial state the
queue after the first step is the new query alone and the counter is 2. -/
theorem yt_search_enqueues_and_continues (cfg : Config) (w : World) (userQuestion : String)
    (fuel : Nat) (st : LoopState) (tr : List Event) (query : String) (rest : List String)
    (seen : Registry) (raw decision : String) (action : AgentAction)
    (hlt : st.step < cfg.maxSteps) (hq : st.searchQueue = query :: rest)
    (hm : mergeIssues cfg (truncateIssues cfg (searchResult cfg w query tr).data)
      st.seenIssues = some seen)
    (he : expertResult cfg w userQuestion st seen (searchResult cfg w query tr).err
      (afterSearch cfg w query tr) = ChatResult.ok raw)
    (hx : extractorResult cfg w (trimSpace (removeThinkTags raw))
      (afterExpert cfg w userQuestion st seen (searchResult cfg w query tr).err
        (afterSearch cfg w query tr)) = ChatResult.ok decision)
    (hp : w.jsonUnmarshal decision = some action)
    (ha : action.action = "yt_search") (hne : action.query ≠ "") :
    forLoop cfg w userQuestion (fuel + 1) st tr =
      forLoop cfg w userQuestion fuel
        { step := st.step + 1
          searchQueue := rest ++ [action.query]
          seenIssues := seen
          attemptQueries := st.attemptQueries ++ [query] }
        (if action.answer ≠ "" then
          notifyChunk cfg w
            (afterExtractor cfg w (trimSpace (removeThinkTags raw))
              (afterExpert cfg w userQuestion st seen (searchResult cfg w query tr).err
                (afterSearch cfg w query tr)))
            (action.answer ++ "\n")
        else
          afterExtractor cfg w (trimSpace (removeThinkTags raw))
            (afterExpert cfg w userQuestion st seen (searchResult cfg w query tr).err
              (afterSearch cfg w query tr))) ∧
    (st = initialState userQuestion →
      rest ++ [action.query] = [action.query] ∧ st.step + 1 = 2) := by
  refine ⟨?_, ?_⟩
  · rw [forLoop_succ cfg w userQuestion fuel st tr query rest (by omega) hq]
    have hns : ¬ st.step = cfg.maxSteps := by omega
    have hnf : ¬ ("yt_search" : String) = "final_answer" := by decide
    simp only [loopBody, hm, reason, he, hns, if_false, hx, dispatch, hp, hnf, ha, hne,
      ne_eq, not_false_eq_true, and_self, if_true]
  · intro hst
    subst hst
    simp only [initialState, List.cons.injEq] at hq
    obtain ⟨_, hrest⟩ := hq
    subst hrest
    simp [initialState]

/-- Instance of C6: the first step of the sample interaction, answered by a
request for the search `q2` without answer text. -/
theorem yt_search_enqueues_and_continues_witness :
    ((initialState "q").step < sampleConfig.maxSteps ∧
     (initialState "q").searchQueue = ["q"] ∧
     mergeIssues sampleConfig
       (truncateIssues sampleConfig (searchResult sampleConfig searchingWorld "q" []).data)
       (initialState "q").seenIssues = some [("A-1", sampleRecord "A-1" "Open")] ∧
     searchingWorld.jsonUnmarshal searchDecision =
       some { action := "yt_search", answer := "", query := "q2" }) ∧
    (forLoop sampleConfig searchingWorld "q" (3 + 1) (initialState "q") [] =
      forLoop sampleConfig searchingWorld "q" 3
        { step := 1 + 1
          searchQueue := [] ++ ["q2"]
          seenIssues := [("A-1", sampleRecord "A-1" "Open")]
          attemptQueries := [] ++ ["q"] }
        (if ("" : String) ≠ "" then
          notifyChunk sampleConfig searchingWorld
            (afterExtractor sampleConfig searchingWorld (trimSpace (removeThinkTags "r"))
              (afterExpert sampleConfig searchingWorld "q" (initialState "q")
                [("A-1", sampleRecord "A-1" "Open")]
                (searchResult sampleConfig searchingWorld "q" []).err
                (afterSearch sampleConfig searchingWorld "q" [])))
            ("" ++ "\n")
        else
          afterExtractor sampleConfig searchingWorld (trimSpace (removeThinkTags "r"))
            (afterExpert sampleConfig searchingWorld "q" (initialState "q")
              [("A-1", sampleRecord "A-1" "Open")]
              (searchResult sampleConfig searchingWorld "q" []).err
              (afterSearch sampleConfig searchingWorld "q" []))) ∧
    (initialState "q" = initialState "q" → [] ++ ["q2"] = ["q2"] ∧ 1 + 1 = 2)) :=
  ⟨⟨by decide, rfl, rfl, rfl⟩,
    yt_search_enqueues_and_continues sampleConfig searchingWorld "q" 3 (initialState "q") []
      "q" [] [("A-1", sampleRecord "A-1" "Open")] "r" searchDecision
      { action := "yt_search", answer := "", query := "q2" }
      (by decide) rfl rfl rfl rfl rfl rfl (by decide)⟩

/-- C7. At a step below the budget, with a non-empty queue whose search results
merge and with both calls answered: when the decision does not parse, the pass
ends by going to the next iteration with the step counter raised by one, the
queue exactly as the dequeue left it, the merged registry and the extended
attempt log; everything the pass wrote is a plain chunk, so no terminal chunk
and no sentinel. -/
theorem unparseable_decision_keeps_queue (cfg : Config) (w : World) (userQuestion : String)
    (fuel : Nat) (st : LoopState) (tr : List Event) (query : String) (rest : List String)
    (seen : Registry) (raw decision : String)
    (hlt : st.step < cfg.maxSteps) (hq : st.searchQueue = query :: rest)
    (hm : mergeIssues cfg (truncateIssues cfg (searchResult cfg w query tr).data)
      st.seenIssues = some seen)
    (he : expertResult cfg w userQuestion st seen (searchResult cfg w query tr).err
      (afterSearch cfg w query tr) = ChatResult.ok raw)
    (hx : extractorResult cfg w (trimSpace (removeThinkTags raw))
      (afterExpert cfg w userQuestion st seen (searchResult cfg w query tr).err
        (afterSearch cfg w query tr)) = ChatResult.ok decision)
    (hp : w.jsonUnmarshal decision = none) :
    loopBody cfg w userQuestion st query rest tr =
      (Control.again
        { step := st.step
          searchQueue := rest
          seenIssues := seen
          attemptQueries := st.attemptQueries ++ [query] },
       afterExtractor cfg w (trimSpace (removeThinkTags raw))
         (afterExpert cfg w userQuestion st seen (searchResult cfg w query tr).err
           (afterSearch cfg w query tr))) ∧
    forLoop cfg w userQuestion (fuel + 1) st tr =
      forLoop cfg w userQuestion fuel
        { step := st.step + 1
          searchQueue := rest
          seenIssues := seen
          attemptQueries := st.attemptQueries ++ [query] }
        (afterExtractor cfg w (trimSpace (removeThinkTags raw))
          (afterExpert cfg w userQuestion st seen (searchResult cfg w query tr).err
            (afterSearch cfg w query tr))) ∧
    Extends tr
      (afterExtractor cfg w (trimSpace (removeThinkTags raw))
        (afterExpert cfg w userQuestion st seen (searchResult cfg w query tr).err
          (afterSearch cfg w query tr))) := by
  have hns : ¬ st.step = cfg.maxSteps := by omega
  have hbody : loopBody cfg w userQuestion st query rest tr =
      (Control.again
        { step := st.step
          searchQueue := rest
          seenIssues := seen
          attemptQueries := st.attemptQueries ++ [query] },
       afterExtractor cfg w (trimSpace (removeThinkTags raw))
         (afterExpert cfg w userQuestion st seen (searchResult cfg w query tr).err
           (afterSearch cfg w query tr))) := by
    simp only [loopBody, hm, reason, he, hns, if_false, hx, dispatch, hp]
  refine ⟨hbody, ?_, ?_⟩
  · rw [forLoop_succ cfg w userQuestion fuel st tr query rest (by omega) hq, hbody]
  · exact extends_trans (extends_afterSearch cfg w query tr)
      (extends_trans (extends_afterExpert cfg w userQuestion st seen _ _)
        (extends_afterExtractor cfg w _ _))

/-- Instance of C7: the first step of the sample interaction, answered by text
that is not JSON. -/
theorem unparseable_decision_keeps_queue_witness :
    ((initialState "q").step < sampleConfig.maxSteps ∧
     (initialState "q").searchQueue = ["q"] ∧
     mergeIssues sampleConfig
       (truncateIssues sampleConfig (searchResult sampleConfig garbledWorld "q" []).data)
       (initialState "q").seenIssues = some [("A-1", sampleRecord "A-1" "Open")] ∧
     garbledWorld.jsonUnmarshal "not json" = none) ∧
    (loopBody sampleConfig garbledWorld "q" (initialState "q") "q" [] [] =
      (Control.again
        { step := 1
          searchQueue := []
          seenIssues := [("A-1", sampleRecord "A-1" "Open")]
          attemptQueries := [] ++ ["q"] },
       afterExtractor sampleConfig garbledWorld (trimSpace (removeThinkTags "r"))
         (afterExpert sampleConfig garbledWorld "q" (initialState "q")
           [("A-1", sampleRecord "A-1" "Open")]
           (searchResult sampleConfig garbledWorld "q" []).err
           (afterSearch sampleConfig garbledWorld "q" []))) ∧
    forLoop sampleConfig garbledWorld "q" (3 + 1) (initialState "q") [] =
      forLoop sampleConfig garbledWorld "q" 3
        { step := 1 + 1
          searchQueue := []
          seenIssues := [("A-1", sampleRecord "A-1" "Open")]
          attemptQueries := [] ++ ["q"] }
        (afterExtractor sampleConfig garbledWorld (trimSpace (removeThinkTags "r"))
          (afterExpert sampleConfig garbledWorld "q" (initialState "q")
            [("A-1", sampleRecord "A-1" "Open")]
            (searchResult sampleConfig garbledWorld "q" []).err
            (afterSearch sampleConfig garbledWorld "q" []))) ∧
    Extends []
      (afterExtractor sampleConfig garbledWorld (trimSpace (removeThinkTags "r"))
        (afterExpert sampleConfig garbledWorld "q" (initialState "q")
          [("A-1", sampleRecord "A-1" "Open")]
          (searchResult sampleConfig garbledWorld "q" []).err
          (afterSearch sampleConfig garbledWorld "q" [])))) :=
  ⟨⟨by decide, rfl, rfl, rfl⟩,
    unparseable_decision_keeps_queue sampleConfig garbledWorld "q" 3 (initialState "q") []
      "q" [] [("A-1", sampleRecord "A-1" "Open")] "r" "not json"
      (by decide) rfl rfl rfl rfl rfl⟩

/-- C8, the code at the failing input. Three steps are permitted and the
decision of the first step does not parse: the run makes one search call and
one expert call, and its terminal chunk carries the fixed fallback text. The
second step is never executed. -/
theorem unparseable_decision_ends_interaction :
    sampleConfig.maxSteps = 3 ∧
    garbledWorld.jsonUnmarshal "not json" = none ∧
    searchCalls (agentAnswerStream sampleConfig garbledWorld "q").trace = 1 ∧
    expertCalls (agentAnswerStream sampleConfig garbledWorld "q").trace = 1 ∧
    stopContents (agentAnswerStream sampleConfig garbledWorld "q").trace =
      [some "Не получилось найти ответ\n"] := by
  refine ⟨rfl, rfl, ?_, ?_, ?_⟩ <;> decide

/-! ## The search limit -/

/-- C9, refuted as stated. The limit is 1. The search of the first step
returns `A-1` and `A-2`, that of the later steps `B-1`. The snapshot in the
prompt of the first step holds `A-1` only, so `A-2` was not merged, and it
appears in no later prompt; the snapshot in the prompt of the second step holds
two records, more than the limit. -/
theorem search_limit_cuts_results_not_snapshot :
    sampleConfig.youtrackSearchLimit = 1 ∧
    (searchResult sampleConfig searchingWorld "q" []).data.map
        (fun it => (JObject.get it "idReadable").asString) = [some "A-1", some "A-2"] ∧
    searchingWorld.jsonMarshal [sampleRecord "A-1" "Open", sampleRecord "B-1" "Fixed"] =
      "A-1,B-1" ∧
    expertPromptsOf (agentAnswerStream sampleConfig searchingWorld "q").trace =
      ["Вопрос пользователя: \"q\"\n\nНайденные задачи:\nA-1",
       "Вопрос пользователя: \"q\"\n\nНайденные задачи:\nA-1,B-1Уже опробованные Youtrack-запросы: \n`q`\n",
       "Вопрос пользователя: \"q\"\n\nНайденные задачи:\nA-1,B-1Уже опробованные Youtrack-запросы: \n`q`\n`q2`\n Это была последняя попытка что-либо поискать. Выдавай финальный ответ на основе тех задач, что были найдены."] := by
  refine ⟨rfl, rfl, rfl, ?_⟩
  rfl

/-- C9, amended. The limit caps what one search contributes to the merge: at
every step the first `youtrackSearchLimit` raw issues returned by the search
are the ones merged, and when that merge succeeds the expert call is made with
a prompt that serialises the whole resulting registry, which is also the
registry the next step starts from. -/
theorem search_limit_caps_merged_results (cfg : Config) (w : World) (userQuestion : String)
    (st : LoopState) (query : String) (rest : List String) (tr : List Event)
    (seen : Registry)
    (hm : mergeIssues cfg ((searchResult cfg w query tr).data.take cfg.youtrackSearchLimit)
      st.seenIssues = some seen) :
    Event.llmChat
        (expertMessages
          (expertUserPrompt userQuestion (w.jsonMarshal (seen.map Prod.snd)) st.attemptQueries
            (searchResult cfg w query tr).err (decide (st.step = cfg.maxSteps))))
        32000 0 none ∈ (loopBody cfg w userQuestion st query rest tr).2 ∧
    ∀ st1, (loopBody cfg w userQuestion st query rest tr).1 = Control.again st1 →
      st1.seenIssues = seen := by
  have hm1 : mergeIssues cfg (truncateIssues cfg (searchResult cfg w query tr).data)
      st.seenIssues = some seen := by
    rw [truncateIssues_eq_take]; exact hm
  have hmem : Event.llmChat
      (expertMessages
        (expertUserPrompt userQuestion (w.jsonMarshal (seen.map Prod.snd)) st.attemptQueries
          (searchResult cfg w query tr).err (decide (st.step = cfg.maxSteps))))
      32000 0 none ∈ afterExpert cfg w userQuestion st seen (searchResult cfg w query tr).err
        (afterSearch cfg w query tr) := by
    simp [afterExpert, expertPrompt, snapshot]
  simp only [loopBody, hm1, reason]
  split
  · exact ⟨hmem, fun st1 h => by simp at h⟩
  · exact ⟨hmem, fun st1 h => by simp at h⟩
  · rename_i raw _
    split
    · refine ⟨?_, fun st1 h => by simp at h⟩
      simp only [notifyEnd, notifyChunk, List.mem_append]
      exact Or.inl (Or.inl hmem)
    · have hmemx : Event.llmChat
          (expertMessages
            (expertUserPrompt userQuestion (w.jsonMarshal (seen.map Prod.snd))
              st.attemptQueries (searchResult cfg w query tr).err
              (decide (st.step = cfg.maxSteps))))
          32000 0 none ∈ afterExtractor cfg w (trimSpace (removeThinkTags raw))
            (afterExpert cfg w userQuestion st seen (searchResult cfg w query tr).err
              (afterSearch cfg w query tr)) := by
        simp only [afterExtractor, notifyChunk, List.mem_append]
        exact Or.inl (Or.inl hmem)
      split
      · exact ⟨hmemx, fun st1 h => by simp at h⟩
      · exact ⟨hmemx, fun st1 h => by simp at h⟩
      · rename_i decision _
        exact ⟨mem_of_bodyShape _ (dispatch_shape cfg w st rest seen _ decision _) _ hmemx,
          dispatch_registry cfg w st rest seen _ decision _⟩

/-- Instance of the amended C9: the first step of the sample interaction, whose
search returns two issues under a limit of one. -/
theorem search_limit_caps_merged_results_witness :
    mergeIssues sampleConfig
      ((searchResult sampleConfig searchingWorld "q" []).data.take
        sampleConfig.youtrackSearchLimit)
      (initialState "q").seenIssues = some [("A-1", sampleRecord "A-1" "Open")] ∧
    (Event.llmChat
        (expertMessages
          (expertUserPrompt "q"
            (searchingWorld.jsonMarshal ([("A-1", sampleRecord "A-1" "Open")].map Prod.snd))
            (initialState "q").attemptQueries
            (searchResult sampleConfig searchingWorld "q" []).err
            (decide ((initialState "q").step = sampleConfig.maxSteps))))
        32000 0 none ∈ (loopBody sampleConfig searchingWorld "q" (initialState "q") "q" [] []).2 ∧
    ∀ st1, (loopBody sampleConfig searchingWorld "q" (initialState "q") "q" [] []).1 =
        Control.again st1 →
      st1.seenIssues = [("A-1", sampleRecord "A-1" "Open")]) :=
  ⟨rfl, search_limit_caps_merged_results sampleConfig searchingWorld "q" (initialState "q")
    "q" [] [] [("A-1", sampleRecord "A-1" "Open")] rfl⟩

/-! ## Malformed custom fields -/

/-- C10, the code at the failing inputs. A raw issue with a string ID whose
custom-field list has an entry without a string `name`, or a `State` entry
whose value object has no string `name`, or a `Reviewers` entry with such an
element, is not turned into a record: the unchecked assertion fails, and an
interaction whose search returns such an issue ends in a run-time failure
before any terminal chunk is written. -/
theorem malformed_custom_field_fails (cfg : Config) :
    buildRecord cfg
      [("idReadable", JVal.string "A-1"),
       ("customFields", JVal.array [JVal.object [("value", JVal.null)]])] = none ∧
    buildRecord cfg
      [("idReadable", JVal.string "A-1"),
       ("customFields", JVal.array
         [JVal.object [("name", JVal.string "State"),
                       ("value", JVal.object [("name", JVal.null)])]])] = none ∧
    buildRecord cfg
      [("idReadable", JVal.string "A-1"),
       ("customFields", JVal.array
         [JVal.object [("name", JVal.string "Reviewers"),
                       ("value", JVal.array [JVal.object []])]])] = none ∧
    (agentAnswerStream sampleConfig
      (sampleWorld
        (fun _ => { data := [[("idReadable", JVal.string "A-1"),
                              ("customFields", JVal.array
                                [JVal.object [("name", JVal.string "State"),
                                              ("value", JVal.object [("name", JVal.null)])]])]],
                    err := none })
        (chatReply "r") (chatReply finalDecision)) "q").exit = Exit.panicked ∧
    stopContents (agentAnswerStream sampleConfig
      (sampleWorld
        (fun _ => { data := [[("idReadable", JVal.string "A-1"),
                              ("customFields", JVal.array
                                [JVal.object [("name", JVal.string "State"),
                                              ("value", JVal.object [("name", JVal.null)])]])]],
                    err := none })
        (chatReply "r") (chatReply finalDecision)) "q").trace = [] := by
  refine ⟨rfl, rfl, rfl, ?_, ?_⟩ <;> decide

/-! ## A failing search call -/

/-- C11, the code at the failing input. The search call returns an error
together with the elements the decoder had stored. With a limit of one the
issue `A-1` is merged although the call failed: the prompt of the first step
lists it next to the error text. With a limit of two the nil element is
reached and the interaction stops on the unchecked assertion, before any
expert call and without a terminal chunk. -/
theorem search_error_with_partial_data_is_merged :
    (youtrackRequestResult partialDecode).err ≠ none ∧
    (youtrackRequestResult partialDecode).data.length = 2 ∧
    expertPromptsOf (agentAnswerStream sampleConfig decodeErrorWorld "q").trace =
      ["Вопрос пользователя: \"q\"\n\nНайденные задачи:\nA-1 Ошибка от последнего запроса: json: cannot unmarshal number into Go value of type map[string]interface \x7b\x7d"] ∧
    (agentAnswerStream wideConfig decodeErrorWorld "q").exit = Exit.panicked ∧
    expertCalls (agentAnswerStream wideConfig decodeErrorWorld "q").trace = 0 ∧
    stopContents (agentAnswerStream wideConfig decodeErrorWorld "q").trace = [] := by
  refine ⟨by decide, rfl, ?_, ?_, ?_, ?_⟩
  · rfl
  · rfl
  · rfl
  · rfl

/-! ## Thinking blocks -/

/-- C12, refuted as stated. An opening delimiter without a closing one is
left in the result, and the result of one pass can itself hold a complete
block that the deletion brought together. -/
theorem removeThinkTags_leaves_delimiters :
    removeThinkTags "<think>abc" = "<think>abc" ∧
    removeThinkTags "<thi<think>x</think>nk>a</think>" = "<think>a</think>" := by
  constructor <;> decide

/-- C12, amended. In one pass from the left `removeThinkTags` deletes each
block that runs from an occurrence of `<think>` to the first `</think>` after
it and keeps everything else in order: the result is made of characters of the
input in their order; an input that holds no block is returned as it is; and
for an input `a <think> b </think> c` where `<think>` does not occur in `a`
and `</think>` does not occur in `b`, the result is `a` followed by the result
for `c`. -/
theorem removeThinkTags_deletes_blocks_in_one_pass :
    (∀ s : String, (removeThinkTags s).data.Sublist s.data) ∧
    (∀ s : String, (∀ a b c : String, s ≠ a ++ "<think>" ++ b ++ "</think>" ++ c) →
      removeThinkTags s = s) ∧
    (∀ a b c : String, ¬ "<think>".data <:+: a.data → ¬ "</think>".data <:+: b.data →
      removeThinkTags (a ++ "<think>" ++ b ++ "</think>" ++ c) = a ++ removeThinkTags c) := by
  refine ⟨fun s => stripMatches_sublist s.data 0, fun s h => ?_, fun a b c ha hb => ?_⟩
  · apply String.ext
    refine stripMatches_no_block s.data (fun a b c hs => ?_)
    exact h (String.mk a) (String.mk b) (String.mk c) (String.ext (by
      rw [hs]; simp only [String.data_append]; rfl))
  · apply String.ext
    have h := stripMatches_block a.data b.data c.data ha hb
    simp only [removeThinkTags, String.data_append]
    exact h

/-- Instance of the amended C12: one block between kept text, and an unclosed
delimiter after it. -/
theorem removeThinkTags_deletes_blocks_in_one_pass_witness :
    (¬ "<think>".data <:+: "a ".data ∧ ¬ "</think>".data <:+: "b".data) ∧
    removeThinkTags ("a " ++ "<think>" ++ "b" ++ "</think>" ++ " c<think>") =
      "a " ++ removeThinkTags " c<think>" ∧
    removeThinkTags " c<think>" = " c<think>" :=
  ⟨⟨by decide, by decide⟩,
    removeThinkTags_deletes_blocks_in_one_pass.2.2 "a " "b" " c<think>" (by decide) (by decide),
    by decide⟩

/-! ## The ends of a pass -/

/-- C13. At a step below the budget, with a non-empty queue whose search
results merge and with both calls answered: when the decision parses to action
`final_answer`, whatever its query field and whatever is left in the queue, the
interaction ends in that pass. After the extractor call only the closing
`</think>` chunk, the terminal chunk with the answer text followed by a
newline, the sentinel and a flush follow; the pass made one search call and
the two `llmChat` calls, and nothing comes after it. -/
theorem final_answer_ends_interaction (cfg : Config) (w : World) (userQuestion : String)
    (fuel : Nat) (st : LoopState) (tr : List Event) (query : String) (rest : List String)
    (seen : Registry) (raw decision : String) (action : AgentAction)
    (hlt : st.step < cfg.maxSteps) (hq : st.searchQueue = query :: rest)
    (hm : mergeIssues cfg (truncateIssues cfg (searchResult cfg w query tr).data)
      st.seenIssues = some seen)
    (he : expertResult cfg w userQuestion st seen (searchResult cfg w query tr).err
      (afterSearch cfg w query tr) = ChatResult.ok raw)
    (hx : extractorResult cfg w (trimSpace (removeThinkTags raw))
      (afterExpert cfg w userQuestion st seen (searchResult cfg w query tr).err
        (afterSearch cfg w query tr)) = ChatResult.ok decision)
    (hp : w.jsonUnmarshal decision = some action)
    (ha : action.action = "final_answer") :
    forLoop cfg w userQuestion (fuel + 1) st tr =
      { exit := Exit.returned
        trace := notifyEnd cfg w
          (notifyChunk cfg w
            (afterExtractor cfg w (trimSpace (removeThinkTags raw))
              (afterExpert cfg w userQuestion st seen (searchResult cfg w query tr).err
                (afterSearch cfg w query tr))) "</think>")
          (action.answer ++ "\n") } ∧
    searchCalls (forLoop cfg w userQuestion (fuel + 1) st tr).trace = searchCalls tr + 1 ∧
    chatCalls (forLoop cfg w userQuestion (fuel + 1) st tr).trace = chatCalls tr + 2 ∧
    stopContents (forLoop cfg w userQuestion (fuel + 1) st tr).trace =
      stopContents tr ++ [some (action.answer ++ "\n")] := by
  have hns : ¬ st.step = cfg.maxSteps := by omega
  have heq : forLoop cfg w userQuestion (fuel + 1) st tr =
      { exit := Exit.returned
        trace := notifyEnd cfg w
          (notifyChunk cfg w
            (afterExtractor cfg w (trimSpace (removeThinkTags raw))
              (afterExpert cfg w userQuestion st seen (searchResult cfg w query tr).err
                (afterSearch cfg w query tr))) "</think>")
          (action.answer ++ "\n") } := by
    rw [forLoop_succ cfg w userQuestion fuel st tr query rest (by omega) hq]
    simp only [loopBody, hm, reason, he, hns, if_false, hx, dispatch, hp, ha, if_true]
  have hne := append_newline_ne_empty action.answer
  refine ⟨heq, ?_, ?_, ?_⟩
  · rw [heq]
    simp only [(calls_notifyEnd cfg w _ _).1, (calls_notifyChunk cfg w _ _).1,
      (calls_afterExtractor cfg w _ _).1, (calls_afterExpert cfg w _ _ _ _ _).1,
      (calls_afterSearch cfg w _ _).1]
  · rw [heq]
    simp only [(observe_notifyEnd cfg w _ _ hne).1, (observe_notifyChunk cfg w _ _).1,
      (observe_afterExtractor cfg w _ _).1, (observe_afterExpert cfg w _ _ _ _ _).1,
      (observe_afterSearch cfg w _ _).1]
  · rw [heq]
    simp only [(observe_notifyEnd cfg w _ _ hne).2.2, (observe_notifyChunk cfg w _ _).2.2,
      (observe_afterExtractor cfg w _ _).2.2, (observe_afterExpert cfg w _ _ _ _ _).2.2,
      (observe_afterSearch cfg w _ _).2.2]

/-- Instance of C13: the first step of the sample interaction, answered by a
final answer. -/
theorem final_answer_ends_interaction_witness :
    ((initialState "q").step < sampleConfig.maxSteps ∧
     (initialState "q").searchQueue = ["q"] ∧
     mergeIssues sampleConfig
       (truncateIssues sampleConfig (searchResult sampleConfig answeringWorld "q" []).data)
       (initialState "q").seenIssues = some [("A-1", sampleRecord "A-1" "Open")] ∧
     answeringWorld.jsonUnmarshal finalDecision =
       some { action := "final_answer", answer := "ok", query := "" }) ∧
    (forLoop sampleConfig answeringWorld "q" (3 + 1) (initialState "q") [] =
      { exit := Exit.returned
        trace := notifyEnd sampleConfig answeringWorld
          (notifyChunk sampleConfig answeringWorld
            (afterExtractor sampleConfig answeringWorld
              (trimSpace (removeThinkTags " <think>hm</think>r\n"))
              (afterExpert sampleConfig answeringWorld "q" (initialState "q")
                [("A-1", sampleRecord "A-1" "Open")]
                (searchResult sampleConfig answeringWorld "q" []).err
                (afterSearch sampleConfig answeringWorld "q" []))) "</think>")
          ("ok" ++ "\n") } ∧
    searchCalls (forLoop sampleConfig answeringWorld "q" (3 + 1) (initialState "q") []).trace =
      searchCalls [] + 1 ∧
    chatCalls (forLoop sampleConfig answeringWorld "q" (3 + 1) (initialState "q") []).trace =
      chatCalls [] + 2 ∧
    stopContents (forLoop sampleConfig answeringWorld "q" (3 + 1) (initialState "q") []).trace =
      stopContents [] ++ [some ("ok" ++ "\n")]) :=
  ⟨⟨by decide, rfl, rfl, rfl⟩,
    final_answer_ends_interaction sampleConfig answeringWorld "q" 3 (initialState "q") []
      "q" [] [("A-1", sampleRecord "A-1" "Open")] " <think>hm</think>r\n" finalDecision
      { action := "final_answer", answer := "ok", query := "" }
      (by decide) rfl rfl rfl rfl rfl rfl⟩

/-- C14. At a step below the budget, with a non-empty queue whose search
results merge and with both calls answered: when the decision parses to an
action that is not `final_answer` and is not `yt_search` with a non-empty
query, the interaction ends in that pass. After the extractor call only the
closing `</think>` chunk, the terminal chunk with the fixed fallback text, the
sentinel and a flush follow; nothing is enqueued and no call comes after the
two `llmChat` calls of the pass. -/
theorem other_action_aborts (cfg : Config) (w : World) (userQuestion : String)
    (fuel : Nat) (st : LoopState) (tr : List Event) (query : String) (rest : List String)
    (seen : Registry) (raw decision : String) (action : AgentAction)
    (hlt : st.step < cfg.maxSteps) (hq : st.searchQueue = query :: rest)
    (hm : mergeIssues cfg (truncateIssues cfg (searchResult cfg w query tr).data)
      st.seenIssues = some seen)
    (he : expertResult cfg w userQuestion st seen (searchResult cfg w query tr).err
      (afterSearch cfg w query tr) = ChatResult.ok raw)
    (hx : extractorResult cfg w (trimSpace (removeThinkTags raw))
      (afterExpert cfg w userQuestion st seen (searchResult cfg w query tr).err
        (afterSearch cfg w query tr)) = ChatResult.ok decision)
    (hp : w.jsonUnmarshal decision = some action)
    (hnf : action.action ≠ "final_answer")
    (hns : ¬ (action.action = "yt_search" ∧ action.query ≠ "")) :
    forLoop cfg w userQuestion (fuel + 1) st tr =
      { exit := Exit.returned
        trace := notifyEnd cfg w
          (notifyChunk cfg w
            (afterExtractor cfg w (trimSpace (removeThinkTags raw))
              (afterExpert cfg w userQuestion st seen (searchResult cfg w query tr).err
                (afterSearch cfg w query tr))) "</think>")
          "Не получилось найти ответ\n" } ∧
    searchCalls (forLoop cfg w userQuestion (fuel + 1) st tr).trace = searchCalls tr + 1 ∧
    chatCalls (forLoop cfg w userQuestion (fuel + 1) st tr).trace = chatCalls tr + 2 ∧
    stopContents (forLoop cfg w userQuestion (fuel + 1) st tr).trace =
      stopContents tr ++ [some "Не получилось найти ответ\n"] := by
  have hstep : ¬ st.step = cfg.maxSteps := by omega
  have heq : forLoop cfg w userQuestion (fuel + 1) st tr =
      { exit := Exit.returned
        trace := notifyEnd cfg w
          (notifyChunk cfg w
            (afterExtractor cfg w (trimSpace (removeThinkTags raw))
              (afterExpert cfg w userQuestion st seen (searchResult cfg w query tr).err
                (afterSearch cfg w query tr))) "</think>")
          "Не получилось найти ответ\n" } := by
    rw [forLoop_succ cfg w userQuestion fuel st tr query rest (by omega) hq]
    simp only [loopBody, hm, reason, he, hstep, if_false, hx, dispatch, hp, hnf, hns]
    rfl
  have hne : ("Не получилось найти ответ\n" : String) ≠ "" := by decide
  refine ⟨heq, ?_, ?_, ?_⟩
  · rw [heq]
    simp only [(calls_notifyEnd cfg w _ _).1, (calls_notifyChunk cfg w _ _).1,
      (calls_afterExtractor cfg w _ _).1, (calls_afterExpert cfg w _ _ _ _ _).1,
      (calls_afterSearch cfg w _ _).1]
  · rw [heq]
    simp only [(observe_notifyEnd cfg w _ _ hne).1, (observe_notifyChunk cfg w _ _).1,
      (observe_afterExtractor cfg w _ _).1, (observe_afterExpert cfg w _ _ _ _ _).1,
      (observe_afterSearch cfg w _ _).1]
  · rw [heq]
    simp only [(observe_notifyEnd cfg w _ _ hne).2.2, (observe_notifyChunk cfg w _ _).2.2,
      (observe_afterExtractor cfg w _ _).2.2, (observe_afterExpert cfg w _ _ _ _ _).2.2,
      (observe_afterSearch cfg w _ _).2.2]

/-- Instance of C14: the first step of the sample interaction, answered by an
action of an unknown kind. -/
theorem other_action_aborts_witness :
    ((initialState "q").step < sampleConfig.maxSteps ∧
     (initialState "q").searchQueue = ["q"] ∧
     mergeIssues sampleConfig
       (truncateIssues sampleConfig (searchResult sampleConfig undecidedWorld "q" []).data)
       (initialState "q").seenIssues = some [("A-1", sampleRecord "A-1" "Open")] ∧
     undecidedWorld.jsonUnmarshal unknownDecision =
       some { action := "wait", answer := "", query := "" }) ∧
    (forLoop sampleConfig undecidedWorld "q" (3 + 1) (initialState "q") [] =
      { exit := Exit.returned
        trace := notifyEnd sampleConfig undecidedWorld
          (notifyChunk sampleConfig undecidedWorld
            (afterExtractor sampleConfig undecidedWorld (trimSpace (removeThinkTags "r"))
              (afterExpert sampleConfig undecidedWorld "q" (initialState "q")
                [("A-1", sampleRecord "A-1" "Open")]
                (searchResult sampleConfig undecidedWorld "q" []).err
                (afterSearch sampleConfig undecidedWorld "q" []))) "</think>")
          "Не получилось найти ответ\n" } ∧
    searchCalls (forLoop sampleConfig undecidedWorld "q" (3 + 1) (initialState "q") []).trace =
      searchCalls [] + 1 ∧
    chatCalls (forLoop sampleConfig undecidedWorld "q" (3 + 1) (initialState "q") []).trace =
      chatCalls [] + 2 ∧
    stopContents (forLoop sampleConfig undecidedWorld "q" (3 + 1) (initialState "q") []).trace =
      stopContents [] ++ [some "Не получилось найти ответ\n"]) :=
  ⟨⟨by decide, rfl, rfl, rfl⟩,
    other_action_aborts sampleConfig undecidedWorld "q" 3 (initialState "q") []
      "q" [] [("A-1", sampleRecord "A-1" "Open")] "r" unknownDecision
      { action := "wait", answer := "", query := "" }
      (by decide) rfl rfl rfl rfl rfl (by decide) (by decide)⟩

/-- C16. Let the head of the loop be passed after `k` executed steps. The run
goes on from that head; the attempt log is then the list of the `k` queries
searched so far, in the order of the search calls; the prompt of the step that
starts there has, after the question and the snapshot, the attempted-queries
section built from that list (without the query about to be dequeued), then
the error and last-attempt sections; the section of the empty list is empty;
and a further executed step appends the query it dequeued to the log. -/
theorem attempt_log_is_the_searched_queries (cfg : Config) (w : World)
    (userQuestion : String) (k : Nat) (st : LoopState) (tr : List Event)
    (h : headAfter cfg w userQuestion k = some (st, tr)) :
    agentAnswerStream cfg w userQuestion =
      forLoop cfg w userQuestion (cfg.maxSteps + 1 - k) st tr ∧
    st.step = k + 1 ∧
    st.attemptQueries = searchedQueries tr ∧
    (searchedQueries tr).length = k ∧
    (∀ (seen : Registry) (searchErr : Option String),
      expertPrompt cfg w userQuestion st seen searchErr =
        "Вопрос пользователя: \"" ++ userQuestion ++ "\"\n\nНайденные задачи:\n" ++
          w.jsonMarshal (snapshot seen) ++ attemptsSection (searchedQueries tr) ++
          errorSection searchErr ++
          (if decide (st.step = cfg.maxSteps) = true then lastAttemptInstruction else "")) ∧
    attemptsSection [] = "" ∧
    (∀ (st1 : LoopState) (tr1 : List Event),
      headAfter cfg w userQuestion (k + 1) = some (st1, tr1) →
      ∃ query rest, st.searchQueue = query :: rest ∧
        st1.attemptQueries = st.attemptQueries ++ [query] ∧
        searchedQueries tr1 = searchedQueries tr ++ [query]) := by
  obtain ⟨hstep, _, hrun⟩ := headAfter_on_run cfg w userQuestion k st tr h
  obtain ⟨hatt, hlen, _⟩ := headAfter_invariant cfg w userQuestion k st tr h
  refine ⟨hrun, hstep, hatt, hlen, ?_, rfl, ?_⟩
  · intro seen searchErr
    rw [expertPrompt, expertUserPrompt_sections, hatt]
  · intro st1 tr1 h1
    obtain ⟨st', tr', query, rest, st0, hk, _, hq, hb, hst⟩ :=
      headAfter_succ cfg w userQuestion k st1 tr1 h1
    rw [h] at hk
    simp only [Option.some.injEq, Prod.mk.injEq] at hk
    obtain ⟨e1, e2⟩ := hk
    subst e1 e2
    obtain ⟨_, ha, hs, _⟩ := loopBody_again cfg w userQuestion st query rest tr st0 tr1 hb
    subst hst
    exact ⟨query, rest, hq, ha, hs⟩

/-- Instance of C16: the head of the second step of the sample interaction. -/
theorem attempt_log_is_the_searched_queries_witness :
    headAfter sampleConfig searchingWorld "q" 1 =
      some ({ step := 2
              searchQueue := ["q2"]
              seenIssues := [("A-1", sampleRecord "A-1" "Open")]
              attemptQueries := ["q"] },
            afterExtractor sampleConfig searchingWorld "r"
              (afterExpert sampleConfig searchingWorld "q" (initialState "q")
                [("A-1", sampleRecord "A-1" "Open")] none
                (afterSearch sampleConfig searchingWorld "q"
                  (preamble sampleConfig searchingWorld)))) ∧
    ["q"] = searchedQueries
      (afterExtractor sampleConfig searchingWorld "r"
        (afterExpert sampleConfig searchingWorld "q" (initialState "q")
          [("A-1", sampleRecord "A-1" "Open")] none
          (afterSearch sampleConfig searchingWorld "q"
            (preamble sampleConfig searchingWorld)))) ∧
    attemptsSection ["q"] = "Уже опробованные Youtrack-запросы: \n`q`\n" :=
  ⟨rfl,
    (attempt_log_is_the_searched_queries sampleConfig searchingWorld "q" 1
      { step := 2
        searchQueue := ["q2"]
        seenIssues := [("A-1", sampleRecord "A-1" "Open")]
        attemptQueries := ["q"] }
      (afterExtractor sampleConfig searchingWorld "r"
        (afterExpert sampleConfig searchingWorld "q" (initialState "q")
          [("A-1", sampleRecord "A-1" "Open")] none
          (afterSearch sampleConfig searchingWorld "q"
            (preamble sampleConfig searchingWorld))))
      rfl).2.2.1,
    by decide⟩


/-! ## The emitter on its own -/

/-- C17, refuted as stated. For the empty text the delta of the chunk written
by `notifyChunk`, and of the chunk written by `notifyEnd`, has no content at
all. -/
theorem notify_empty_text_has_no_content :
    writesOf (notifyChunk sampleConfig answeringWorld [] "") =
      [Write.data
        { id := "stream-1"
          object := "chat.completion.chunk"
          created := 1700000000
          model := "model"
          choices := [{ index := 0
                        delta := { role := none, content := none }
                        finishReason := none }] }] ∧
    writesOf (notifyEnd sampleConfig answeringWorld [] "") =
      [Write.data
        { id := "stream-1"
          object := "chat.completion.chunk"
          created := 1700000000
          model := "model"
          choices := [{ index := 0
                        delta := { role := none, content := none }
                        finishReason := some "stop" }] },
       Write.done] :=
  ⟨rfl, rfl⟩

/-- C17, amended. For every text, `notifyChunk` writes exactly one chunk, with
no role marker and no `finish_reason`, and `notifyEnd` writes one chunk with no
role marker and `finish_reason` `"stop"`, followed by the sentinel; the delta
of the chunk carries the text as its content when the text is not empty and
carries no content when it is empty. -/
theorem notify_writes_one_chunk (cfg : Config) (w : World) (tr : List Event) (text : String) :
    writesOf (notifyChunk cfg w tr text) =
      writesOf tr ++
        [Write.data
          { id := cfg.streamID
            object := "chat.completion.chunk"
            created := w.now tr
            model := cfg.modelName
            choices := [{ index := 0
                          delta := { role := none
                                     content := if text = "" then none else some text }
                          finishReason := none }] }] ∧
    writesOf (notifyEnd cfg w tr text) =
      writesOf tr ++
        [Write.data
          { id := cfg.streamID
            object := "chat.completion.chunk"
            created := w.now tr
            model := cfg.modelName
            choices := [{ index := 0
                          delta := { role := none
                                     content := if text = "" then none else some text }
                          finishReason := some "stop" }] },
         Write.done] := by
  constructor
  · rw [notifyChunk_eq, writesOf_append]
    by_cases h : text = "" <;> simp [writesOf, buildChunk, h]
  · rw [notifyEnd_eq, writesOf_append]
    by_cases h : text = "" <;> simp [writesOf, buildChunk, h]

/-! ## The queue along a run -/

/-- C18. Let the head of the loop be passed after `k` executed steps. The run
goes on from that head, and the queue then holds at most one query, and the user's question alone when
`k = 0`. When a further step is executed, the queue held exactly the query
that step searched, and at the next head the queue is empty or holds exactly
the query of that step's `yt_search` action. When two further steps are
executed, the second searches the query of the first one's action. -/
theorem queue_holds_at_most_one_query (cfg : Config) (w : World) (userQuestion : String)
    (k : Nat) (st : LoopState) (tr : List Event)
    (h : headAfter cfg w userQuestion k = some (st, tr)) :
    agentAnswerStream cfg w userQuestion =
      forLoop cfg w userQuestion (cfg.maxSteps + 1 - k) st tr ∧
    st.searchQueue.length ≤ 1 ∧
    (k = 0 → st.searchQueue = [userQuestion]) ∧
    (∀ (st1 : LoopState) (tr1 : List Event),
      headAfter cfg w userQuestion (k + 1) = some (st1, tr1) →
      ∃ query, st.searchQueue = [query] ∧
        searchedQueries tr1 = searchedQueries tr ++ [query] ∧
        (st1.searchQueue = [] ∨
          ∃ action, passAction cfg w userQuestion st query tr = some action ∧
            action.action = "yt_search" ∧ action.query ≠ "" ∧
            st1.searchQueue = [action.query])) ∧
    (∀ (st1 st2 : LoopState) (tr1 tr2 : List Event),
      headAfter cfg w userQuestion (k + 1) = some (st1, tr1) →
      headAfter cfg w userQuestion (k + 2) = some (st2, tr2) →
      ∃ query action, st.searchQueue = [query] ∧
        passAction cfg w userQuestion st query tr = some action ∧
        action.action = "yt_search" ∧
        searchedQueries tr2 = searchedQueries tr1 ++ [action.query]) := by
  have hinv := headAfter_invariant cfg w userQuestion k st tr h
  have hnext : ∀ (st1 : LoopState) (tr1 : List Event),
      headAfter cfg w userQuestion (k + 1) = some (st1, tr1) →
      ∃ query, st.searchQueue = [query] ∧
        searchedQueries tr1 = searchedQueries tr ++ [query] ∧
        (st1.searchQueue = [] ∨
          ∃ action, passAction cfg w userQuestion st query tr = some action ∧
            action.action = "yt_search" ∧ action.query ≠ "" ∧
            st1.searchQueue = [action.query]) := by
    intro st1 tr1 h1
    obtain ⟨st', tr', query, rest, st0, hk, _, hq, hb, hst⟩ :=
      headAfter_succ cfg w userQuestion k st1 tr1 h1
    rw [h] at hk
    simp only [Option.some.injEq, Prod.mk.injEq] at hk
    obtain ⟨e1, e2⟩ := hk
    subst e1 e2
    have hrest : rest = [] := by
      have hlen := hinv.2.2
      rw [hq] at hlen
      simp only [List.length_cons] at hlen
      exact List.length_eq_zero.1 (by omega)
    subst hrest
    obtain ⟨_, _, hs, hqueue⟩ := loopBody_again cfg w userQuestion st query [] tr st0 tr1 hb
    subst hst
    refine ⟨query, hq, hs, ?_⟩
    rcases hqueue with hqq | ⟨action, hpa, hact, hne, hqq⟩
    · exact Or.inl hqq
    · exact Or.inr ⟨action, hpa, hact, hne, by simpa using hqq⟩
  refine ⟨(headAfter_on_run cfg w userQuestion k st tr h).2.2, hinv.2.2, ?_, hnext, ?_⟩
  · intro hk0
    subst hk0
    simp only [headAfter, Option.some.injEq, Prod.mk.injEq] at h
    rw [← h.1]
    rfl
  · intro st1 st2 tr1 tr2 h1 h2
    obtain ⟨query, hq, _, hqueue⟩ := hnext st1 tr1 h1
    obtain ⟨st', tr', query2, rest2, st0, hk, _, hq2, hb2, _⟩ :=
      headAfter_succ cfg w userQuestion (k + 1) st2 tr2 h2
    rw [h1] at hk
    simp only [Option.some.injEq, Prod.mk.injEq] at hk
    obtain ⟨e1, e2⟩ := hk
    subst e1 e2
    have hs2 := (loopBody_again cfg w userQuestion st1 query2 rest2 tr1 st0 tr2 hb2).2.2.1
    rcases hqueue with hqq | ⟨action, hpa, hact, _, hqq⟩
    · rw [hqq] at hq2; simp at hq2
    · rw [hqq] at hq2
      simp only [List.cons.injEq] at hq2
      refine ⟨query, action, hq, hpa, hact, ?_⟩
      rw [hs2, hq2.1]

/-- Instance of C18: the first two heads of the sample interaction; the
second holds the query `q2` of the first step's action. -/
theorem queue_holds_at_most_one_query_witness :
    headAfter sampleConfig searchingWorld "q" 0 =
      some (initialState "q", preamble sampleConfig searchingWorld) ∧
    headAfter sampleConfig searchingWorld "q" 1 =
      some ({ step := 2
              searchQueue := ["q2"]
              seenIssues := [("A-1", sampleRecord "A-1" "Open")]
              attemptQueries := ["q"] },
            afterExtractor sampleConfig searchingWorld "r"
              (afterExpert sampleConfig searchingWorld "q" (initialState "q")
                [("A-1", sampleRecord "A-1" "Open")] none
                (afterSearch sampleConfig searchingWorld "q"
                  (preamble sampleConfig searchingWorld)))) ∧
    passAction sampleConfig searchingWorld "q" (initialState "q") "q"
      (preamble sampleConfig searchingWorld) =
      some { action := "yt_search", answer := "", query := "q2" } ∧
    (initialState "q").searchQueue.length ≤ 1 ∧
    ∃ query, (initialState "q").searchQueue = [query] ∧
      searchedQueries
        (afterExtractor sampleConfig searchingWorld "r"
          (afterExpert sampleConfig searchingWorld "q" (initialState "q")
            [("A-1", sampleRecord "A-1" "Open")] none
            (afterSearch sampleConfig searchingWorld "q"
              (preamble sampleConfig searchingWorld)))) =
        searchedQueries (preamble sampleConfig searchingWorld) ++ [query] ∧
      ((["q2"] : List String) = [] ∨
        ∃ action, passAction sampleConfig searchingWorld "q" (initialState "q") query
            (preamble sampleConfig searchingWorld) = some action ∧
          action.action = "yt_search" ∧ action.query ≠ "" ∧ ["q2"] = [action.query]) :=
  ⟨rfl, rfl, rfl,
    (queue_holds_at_most_one_query sampleConfig searchingWorld "q" 0 (initialState "q")
      (preamble sampleConfig searchingWorld) rfl).2.1,
    (queue_holds_at_most_one_query sampleConfig searchingWorld "q" 0 (initialState "q")
      (preamble sampleConfig searchingWorld) rfl).2.2.2.1
      { step := 2
        searchQueue := ["q2"]
        seenIssues := [("A-1", sampleRecord "A-1" "Open")]
        attemptQueries := ["q"] }
      (afterExtractor sampleConfig searchingWorld "r"
        (afterExpert sampleConfig searchingWorld "q" (initialState "q")
          [("A-1", sampleRecord "A-1" "Open")] none
          (afterSearch sampleConfig searchingWorld "q"
            (preamble sampleConfig searchingWorld))))
      rfl⟩
/-! ## No permitted step -/

/-- C19. The flag check does not refuse the value 0, and with `maxSteps = 0`,
for every question and every behaviour of the surroundings, the function
returns having made no search call and no `llmChat` call, and its writes are
exactly: the role chunk, a chunk with content `<think>`, a chunk with content
`</think>`, the terminal chunk with the fixed fallback text, and the
sentinel. -/
theorem zero_steps_stream (cfg : Config) (w : World) (userQuestion : String) :
    maxStepsRefused 0 = false ∧
    (agentAnswerStream { cfg with maxSteps := 0 } w userQuestion).exit = Exit.returned ∧
    searchCalls (agentAnswerStream { cfg with maxSteps := 0 } w userQuestion).trace = 0 ∧
    chatCalls (agentAnswerStream { cfg with maxSteps := 0 } w userQuestion).trace = 0 ∧
    ∃ t0 t1 t2 t3 : Int,
      writesOf (agentAnswerStream { cfg with maxSteps := 0 } w userQuestion).trace =
        [Write.data
          { id := cfg.streamID, object := "chat.completion.chunk", created := t0
            model := cfg.modelName
            choices := [{ index := 0
                          delta := { role := some "assistant", content := none }
                          finishReason := none }] },
         Write.data
          { id := cfg.streamID, object := "chat.completion.chunk", created := t1
            model := cfg.modelName
            choices := [{ index := 0
                          delta := { role := none, content := some "<think>" }
                          finishReason := none }] },
         Write.data
          { id := cfg.streamID, object := "chat.completion.chunk", created := t2
            model := cfg.modelName
            choices := [{ index := 0
                          delta := { role := none, content := some "</think>" }
                          finishReason := none }] },
         Write.data
          { id := cfg.streamID, object := "chat.completion.chunk", created := t3
            model := cfg.modelName
            choices := [{ index := 0
                          delta := { role := none
                                     content := some "Не получилось найти ответ\n" }
                          finishReason := some "stop" }] },
         Write.done] := by
  have hrun : agentAnswerStream { cfg with maxSteps := 0 } w userQuestion =
      fallback { cfg with maxSteps := 0 } w (preamble { cfg with maxSteps := 0 } w) := by
    simp [agentAnswerStream, forLoop, initialState]
  refine ⟨by decide, by rw [hrun]; rfl, ?_, ?_, ?_⟩
  · rw [hrun]
    simp [fallback, preamble, notifyEnd, notifyChunk, searchCalls, List.countP_cons,
      Event.isSearch]
  · rw [hrun]
    simp [fallback, preamble, notifyEnd, notifyChunk, chatCalls, List.countP_cons,
      Event.isChat]
  · rw [hrun]
    exact ⟨w.now [],
      w.now [Event.write (Write.data (roleChunk { cfg with maxSteps := 0 } (w.now []))),
        Event.flush],
      w.now (preamble { cfg with maxSteps := 0 } w),
      w.now (notifyChunk { cfg with maxSteps := 0 } w (preamble { cfg with maxSteps := 0 } w)
        "</think>"),
      rfl⟩

end YoutrackAgent
